import Mathlib

/-!
Verification of the ssslogger structured-logging library (src/index.ts,
src/serialize-error.ts) against its natural-language specification.

The embedding models the JavaScript value world shallowly:

* Objects and arrays live in a heap (`Heap`), addressed by `Nat`, so that
  object identity (used by the serializer's circular-reference cache, which
  compares with JavaScript `===`) is meaningful and object graphs may be
  cyclic.
* `Error` instances are modelled as tree values (`JsValue.vErr`): the source
  never stores them in the identity cache (the replacer substitutes them
  before the cache check), so their identity is unobservable.
* A property of an object may be an ordinary value or a getter that throws
  (`PropVal.getterThrow`), reflecting that `JSON.stringify` property access
  can throw in JavaScript.
* `String(v)` conversion of a heap object is recorded in the heap entry as
  `toStr : Option String`; `none` models an object whose coercion to a
  primitive throws a `TypeError` (for example `Object.create(null)`).
* Thrown JavaScript values are arbitrary `JsValue`s; a computation that can
  throw returns `Except JsValue _`.
* `JSON.stringify` recursion is fueled; running out of fuel models the
  `RangeError` a JavaScript engine raises on unbounded recursion.
-/

namespace SSSLogger

mutual

/-- A JavaScript value.  `vRef` points into the heap (objects and arrays,
which have identity); `vErr name message stack extras cause` is an `Error`
instance.  Its own-enumerable extra properties (in insertion order) and its
`cause` property are `PropVal`s: reading any of them may invoke a throwing
getter, as `Object.entries(err)` and the `err.cause` read in the source can.
A cause of `.val .vUndefined` means the property is absent.  The `name`,
`message` and `stack` reads are modelled as plain data: on a native Error
they are data properties (own or on the prototype), and the source reads
them directly. -/
inductive JsValue where
  | vNull
  | vUndefined
  | vBool (b : Bool)
  | vNum (n : Int)
  | vStr (s : String)
  | vRef (a : Nat)
  | vErr (ename emessage : String) (stack : Option String)
      (extras : List (String × PropVal)) (cause : PropVal)

/-- An own-enumerable property of an object (heap object or Error): either a
data property or a getter that throws the given value when accessed. -/
inductive PropVal where
  | val (v : JsValue)
  | getterThrow (exc : JsValue)

end

/-- Reading a property: a data property yields its value, a throwing getter
raises. -/
def readProp : PropVal → Except JsValue JsValue
  | .val v => .ok v
  | .getterThrow e => .error e

/-- Plain data properties: the embedding of an all-data property list, as
used by errors whose own properties carry no accessors. -/
def dataProps (l : List (String × JsValue)) : List (String × PropVal) :=
  l.map (fun p => (p.1, PropVal.val p.2))

/-- The shape of a heap object: a plain object with ordered own-enumerable
properties, or an array. -/
inductive HeapBody where
  | hObj (fields : List (String × PropVal))
  | hArr (elems : List JsValue)

/-- One heap cell.  `toStr` is the result of JavaScript `String(obj)`;
`none` models an object whose primitive coercion throws. -/
structure HeapObj where
  toStr : Option String
  body : HeapBody

/-- The heap: cell at index `a` is the object referred to by `vRef a`. -/
abbrev Heap := List HeapObj

/-- The `TypeError` raised by JavaScript when `String(v)` cannot convert its
argument to a primitive. -/
def typeErrorVal : JsValue :=
  .vErr "TypeError" "Cannot convert object to primitive value" none []
    (.val .vUndefined)

/-- The `RangeError` raised on unbounded recursion (call-stack overflow);
used when serialization fuel runs out. -/
def rangeErrorVal : JsValue :=
  .vErr "RangeError" "Maximum call stack size exceeded" none []
    (.val .vUndefined)

/-- `Error.prototype.toString`: the name, then a colon and the message when
the message is nonempty. -/
def errToString (n m : String) : String :=
  if m = "" then n else n ++ ": " ++ m

/-- JavaScript `String(v)`.  Throws (returns `.error`) exactly when the value
is a heap object whose primitive coercion throws. -/
def jsToString (heap : Heap) : JsValue → Except JsValue String
  | .vNull => .ok "null"
  | .vUndefined => .ok "undefined"
  | .vBool b => .ok (if b then "true" else "false")
  | .vNum n => .ok (toString n)
  | .vStr s => .ok s
  | .vErr n m _ _ _ => .ok (errToString n m)
  | .vRef a =>
    match heap[a]? with
    | some o =>
      match o.toStr with
      | some s => .ok s
      | none => .error typeErrorVal
    | none => .ok "undefined"

/-- The JavaScript `instanceof Error` test. -/
def isJsError : JsValue → Bool
  | .vErr _ _ _ _ _ => true
  | _ => false

/-- A value in the middle of serialization: either an original JavaScript
value, or a fresh plain object built by `serializeError` (fresh objects are
pairwise distinct and distinct from every heap object, so the identity cache
never matches them). -/
inductive SVal where
  | orig (v : JsValue)
  | freshObj (fields : List (String × SVal))

/-- Own-key membership test on the association list representing the
`serialized` object under construction. -/
def keyIn (k : String) (l : List (String × SVal)) : Bool :=
  l.any (fun p => p.1 = k)

/-- The own-enumerable properties of `Object.prototype`.  The source tests
`key in serialized` with the JavaScript `in` operator, which consults the
prototype chain; `serialized` is a plain object literal, so every key of
`Object.prototype` answers `true`. -/
def objectProtoKeys : List String :=
  ["constructor", "hasOwnProperty", "isPrototypeOf", "propertyIsEnumerable",
   "toLocaleString", "toString", "valueOf",
   "__defineGetter__", "__defineSetter__", "__lookupGetter__",
   "__lookupSetter__", "__proto__"]

/-- The source's `key in serialized` test (src/serialize-error.ts line 166):
an own key of the object under construction, or any key inherited from
`Object.prototype`. -/
def keyInSerialized (k : String) (l : List (String × SVal)) : Bool :=
  keyIn k l || objectProtoKeys.contains k

/-- The `for (const [key, value] of Object.entries(err))` loop of
`serializeError` (src/serialize-error.ts lines 164-170).  `Object.entries`
reads every own-enumerable property — invoking getters, which may throw —
and the loop then copies each entry, skipping keys for which
`key in serialized` already holds.  The first throwing getter's exception
propagates out (entries read before it are discarded with the partial
result, so reading lazily in loop order is observationally the same as
materializing eagerly up front). -/
def copyExtras (serialized : List (String × SVal)) :
    List (String × PropVal) → Except JsValue (List (String × SVal))
  | [] => .ok serialized
  | (k, pv) :: rest =>
    match readProp pv with
    | .error e => .error e
    | .ok v =>
      if keyInSerialized k serialized then copyExtras serialized rest
      else copyExtras (serialized ++ [(k, SVal.orig v)]) rest

/-- JavaScript property assignment `o[k] = v` on an association list: if the
key exists its value is replaced in place (insertion order kept), otherwise
the pair is appended. -/
def upsert (k : String) (v : SVal) :
    List (String × SVal) → List (String × SVal)
  | [] => [(k, v)]
  | (k', v') :: rest =>
    if k' = k then (k, v) :: rest else (k', v') :: upsert k v rest

/-- The value stored for the `stack` field: the string when present,
`undefined` when the platform supplied none. -/
def stackVal : Option String → JsValue
  | some s => .vStr s
  | none => .vUndefined

/-- src/serialize-error.ts lines 149-180, `serializeError`.  Converts any
value into a plain JSON-serialisable object (as an ordered field list).
Mirrors the source: non-errors become `{ name: "NonError", message:
String(err) }` (the `String` conversion can throw); errors get `name`,
`message`, `stack`, then the own-enumerable extras (enumerated by
`Object.entries`, whose getter invocations can throw; keys already present
per the JavaScript `in` operator are skipped), then — after a `cause`
property read that can itself hit a throwing getter — a recursively
normalized `cause` when `cause !== undefined`. -/
def serializeError (heap : Heap) : JsValue → Except JsValue (List (String × SVal))
  | .vErr n m stack extras cause =>
    match copyExtras
      [("name", SVal.orig (.vStr n)), ("message", SVal.orig (.vStr m)),
       ("stack", SVal.orig (stackVal stack))] extras with
    | .error e => .error e
    | .ok serialized =>
      -- line 174: `const cause = err.cause` — the read may throw
      match cause with
      | .getterThrow e => .error e
      | .val .vUndefined => .ok serialized
      | .val (.vErr cn cm cs cex cc) =>
        match serializeError heap (.vErr cn cm cs cex cc) with
        | .ok inner => .ok (upsert "cause" (SVal.freshObj inner) serialized)
        | .error e => .error e
      | .val .vNull => .ok (upsert "cause" (SVal.orig .vNull) serialized)
      | .val (.vBool b) => .ok (upsert "cause" (SVal.orig (.vBool b)) serialized)
      | .val (.vNum num) => .ok (upsert "cause" (SVal.orig (.vNum num)) serialized)
      | .val (.vStr s) => .ok (upsert "cause" (SVal.orig (.vStr s)) serialized)
      | .val (.vRef a) => .ok (upsert "cause" (SVal.orig (.vRef a)) serialized)
  | .vNull =>
    match jsToString heap .vNull with
    | .ok s => .ok [("name", SVal.orig (.vStr "NonError")), ("message", SVal.orig (.vStr s))]
    | .error e => .error e
  | .vUndefined =>
    match jsToString heap .vUndefined with
    | .ok s => .ok [("name", SVal.orig (.vStr "NonError")), ("message", SVal.orig (.vStr s))]
    | .error e => .error e
  | .vBool b =>
    match jsToString heap (.vBool b) with
    | .ok s => .ok [("name", SVal.orig (.vStr "NonError")), ("message", SVal.orig (.vStr s))]
    | .error e => .error e
  | .vNum n =>
    match jsToString heap (.vNum n) with
    | .ok s => .ok [("name", SVal.orig (.vStr "NonError")), ("message", SVal.orig (.vStr s))]
    | .error e => .error e
  | .vStr s0 =>
    match jsToString heap (.vStr s0) with
    | .ok s => .ok [("name", SVal.orig (.vStr "NonError")), ("message", SVal.orig (.vStr s))]
    | .error e => .error e
  | .vRef a =>
    match jsToString heap (.vRef a) with
    | .ok s => .ok [("name", SVal.orig (.vStr "NonError")), ("message", SVal.orig (.vStr s))]
    | .error e => .error e

example :
    serializeError [] (.vStr "oops") =
      .ok [("name", SVal.orig (.vStr "NonError")),
           ("message", SVal.orig (.vStr "oops"))] := rfl

example :
    serializeError [⟨none, .hObj []⟩] (.vRef 0) = .error typeErrorVal := rfl

/-- Lower-case hexadecimal digit. -/
def hexDigit (n : Nat) : Char :=
  if n < 10 then Char.ofNat (48 + n) else Char.ofNat (87 + n)

/-- Four hexadecimal digits, as used by the JSON `\uXXXX` escape. -/
def hex4 (n : Nat) : String :=
  String.mk [hexDigit (n / 4096 % 16), hexDigit (n / 256 % 16),
    hexDigit (n / 16 % 16), hexDigit (n % 16)]

/-- The escape of one character inside a JSON string literal, as produced by
the JSON quoting routine of `JSON.stringify`. -/
def escChar (c : Char) : String :=
  if c = '"' then "\\\"" else if c = '\\' then "\\\\"
  else if c = Char.ofNat 8 then "\\b" else if c = Char.ofNat 12 then "\\f"
  else if c = '\n' then "\\n" else if c = '\r' then "\\r" else if c = '\t' then "\\t"
  else if c.toNat < 32 then "\\u" ++ hex4 c.toNat
  else String.singleton c

/-- A JSON string literal: quotes around the escaped characters. -/
def quoteJsonString (s : String) : String :=
  "\"" ++ String.join (s.data.map escChar) ++ "\""

/-- `d` levels of the two-space gap `JSON.stringify(_, _, 2)` indents with. -/
def indentStr (d : Nat) : String :=
  String.join (List.replicate d "  ")

/-- Assembles an object's rendered members at nesting depth `depth`, exactly
as `JSON.stringify` with a two-space gap does: `{}` when no member survived,
otherwise each member on its own line, indented one level deeper, with the
closing brace indented at the object's own level. -/
def renderObjParts (depth : Nat) (parts : List String) : String :=
  match parts with
  | [] => "\x7b\x7d"
  | _ => "\x7b\n" ++ indentStr (depth + 1) ++
      String.intercalate (",\n" ++ indentStr (depth + 1)) parts ++
      "\n" ++ indentStr depth ++ "\x7d"

/-- Assembles an array's rendered elements, in the same layout with square
brackets. -/
def renderArrParts (depth : Nat) (parts : List String) : String :=
  match parts with
  | [] => "[]"
  | _ => "[\n" ++ indentStr (depth + 1) ++
      String.intercalate (",\n" ++ indentStr (depth + 1)) parts ++
      "\n" ++ indentStr depth ++ "]"

/-- Reading an own property during serialization: a data property yields its
value, a throwing getter raises. -/
def propGet : PropVal → Except JsValue SVal
  | .val v => .ok (SVal.orig v)
  | .getterThrow e => .error e

/-- Serializes an object's members in order, threading the identity cache
left to right (the source's `cache` array is mutated by the replacer as
`JSON.stringify` walks the members in order).  A member whose value
serializes to `undefined` is dropped; the others become
`"key": value` parts. -/
def serMembers
    (serVal : List Nat → SVal → Except JsValue (Option String × List Nat)) :
    List Nat → List (String × Except JsValue SVal) →
      Except JsValue (List String × List Nat)
  | cache, [] => .ok ([], cache)
  | cache, (k, g) :: rest =>
    match g with
    | .error e => .error e
    | .ok sv =>
      match serVal cache sv with
      | .error e => .error e
      | .ok (r, cache') =>
        match serMembers serVal cache' rest with
        | .error e => .error e
        | .ok (parts, cache'') =>
          .ok ((match r with
                | none => parts
                | some str => (quoteJsonString k ++ ": " ++ str) :: parts),
               cache'')

/-- Serializes an array's elements in order, threading the identity cache.
An element that serializes to `undefined` is rendered as `null`, as
`JSON.stringify` does for array slots. -/
def serElems
    (serVal : List Nat → SVal → Except JsValue (Option String × List Nat)) :
    List Nat → List JsValue → Except JsValue (List String × List Nat)
  | cache, [] => .ok ([], cache)
  | cache, v :: rest =>
    match serVal cache (SVal.orig v) with
    | .error e => .error e
    | .ok (r, cache') =>
      match serElems serVal cache' rest with
      | .error e => .error e
      | .ok (parts, cache'') => .ok ((r.getD "null") :: parts, cache'')

/-- One node of the `JSON.stringify(value, replacer, 2)` traversal of
src/index.ts lines 3-21.  The replacer (lines 7-18) is applied first: an
`Error` is substituted by `serializeError` and the substitution rendered; a
non-null object or array is dropped (`undefined`) when its address is
already in the identity cache and otherwise pushed onto the cache for the
remainder of the whole serialization; everything else passes through.  The
result is the rendered text (`none` when the node serializes to
`undefined`) together with the updated cache.  Fuel exhaustion models the
engine's `RangeError` on unbounded recursion. -/
def serNode (heap : Heap) : Nat → Nat → List Nat → SVal →
    Except JsValue (Option String × List Nat)
  | 0, _, _, _ => .error rangeErrorVal
  | fuel + 1, depth, cache, SVal.freshObj fields =>
    -- A fresh object built by serializeError: non-null object for the
    -- replacer, but never identical to any cached value (fresh objects are
    -- unique), so the cache test misses and the push is unobservable.
    match serMembers (fun c sv => serNode heap fuel (depth + 1) c sv) cache
        (fields.map (fun p => (p.1, Except.ok p.2))) with
    | .ok (parts, cache') => .ok (some (renderObjParts depth parts), cache')
    | .error e => .error e
  | fuel + 1, depth, cache, SVal.orig v =>
    match v with
    | .vErr n m st ex c =>
      -- replacer lines 8-10: an Error is replaced by serializeError's fresh
      -- object before the cache test.
      match serializeError heap (.vErr n m st ex c) with
      | .error e => .error e
      | .ok efields =>
        match serMembers (fun c' sv => serNode heap fuel (depth + 1) c' sv) cache
            (efields.map (fun p => (p.1, Except.ok p.2))) with
        | .ok (parts, cache') => .ok (some (renderObjParts depth parts), cache')
        | .error e => .error e
    | .vRef a =>
      -- replacer lines 11-16: identity-cache test, then push.
      if cache.contains a then .ok (none, cache)
      else
        match heap[a]? with
        | none => .ok (none, cache)
        | some o =>
          match o.body with
          | .hObj fields =>
            match serMembers (fun c' sv => serNode heap fuel (depth + 1) c' sv)
                (cache ++ [a]) (fields.map (fun p => (p.1, propGet p.2))) with
            | .ok (parts, cache') => .ok (some (renderObjParts depth parts), cache')
            | .error e => .error e
          | .hArr elems =>
            match serElems (fun c' sv => serNode heap fuel (depth + 1) c' sv)
                (cache ++ [a]) elems with
            | .ok (parts, cache') => .ok (some (renderArrParts depth parts), cache')
            | .error e => .error e
    | .vNull => .ok (some "null", cache)
    | .vUndefined => .ok (none, cache)
    | .vBool b => .ok (some (if b then "true" else "false"), cache)
    | .vNum n => .ok (some (toString n), cache)
    | .vStr s => .ok (some (quoteJsonString s), cache)

/-- src/index.ts lines 3-21, `stringify`: `JSON.stringify(value, replacer, 2)`
with a cache that is fresh for this call.  `ok none` is the JavaScript
`undefined` result. -/
def stringify (heap : Heap) (fuel : Nat) (value : SVal) :
    Except JsValue (Option String) :=
  match serNode heap fuel 0 [] value with
  | .ok (r, _) => .ok r
  | .error e => .error e

/-- The record object built by `formatMessage` (src/index.ts lines 29-34):
field order logger, ts, msg, obj. -/
def formatRecord (logger ts msg : String) (obj : JsValue) : SVal :=
  SVal.freshObj [("logger", SVal.orig (.vStr logger)),
    ("ts", SVal.orig (.vStr ts)),
    ("msg", SVal.orig (.vStr msg)),
    ("obj", SVal.orig obj)]

/-- src/index.ts lines 23-35, `formatMessage`. -/
def formatMessage (heap : Heap) (fuel : Nat) (logger ts msg : String)
    (obj : JsValue) : Except JsValue (Option String) :=
  stringify heap fuel (formatRecord logger ts msg obj)

example :
    stringify
      [⟨some "[object Object]",
        .hObj [("key", .val (.vStr "value")), ("self", .val (.vRef 0))]⟩]
      10 (SVal.orig (.vRef 0)) =
    .ok (some "\x7b\n  \"key\": \"value\"\n\x7d") := rfl

example :
    stringify
      [⟨some "[object Object]",
        .hObj [("x", .val (.vRef 1)), ("y", .val (.vRef 1))]⟩,
       ⟨some "[object Object]", .hObj []⟩]
      10 (SVal.orig (.vRef 0)) =
    .ok (some "\x7b\n  \"x\": \x7b\x7d\n\x7d") := rfl

example :
    formatMessage [] 10 "log" "2024-03-25T12:00:00.000Z" "m" .vUndefined =
    .ok (some
      "\x7b\n  \"logger\": \"log\",\n  \"ts\": \"2024-03-25T12:00:00.000Z\",\n  \"msg\": \"m\"\n\x7d") := rfl

/-- src/index.ts line 37: the ordered level enumeration. -/
inductive LogLevel where
  | debug
  | info
  | warn
  | error
deriving Repr, DecidableEq

/-- src/index.ts line 37: `const levels = ['debug', 'info', 'warn', 'error']`. -/
def levels : List LogLevel := [.debug, .info, .warn, .error]

/-- The string a level serializes to (levels are strings in the source). -/
def levelName : LogLevel → String
  | .debug => "debug"
  | .info => "info"
  | .warn => "warn"
  | .error => "error"

/-- The `LogHookArgs` entry of src/index.ts lines 40-47 (called
HookInvocationArgs by the specification). -/
structure LogHookArgs where
  logger : String
  ts : String
  level : LogLevel
  msg : String
  obj : JsValue
  formatted : String

/-- Observable effects of one logger call: a wall-clock read
(`new Date().toISOString()`), the invocation of the hook at a position in
the configured list with its argument object, and a write to a console
stream of the given severity. -/
inductive LogEvent where
  | tsRead (ts : String)
  | hookCalled (idx : Nat) (args : LogHookArgs)
  | consoleWrite (level : LogLevel) (line : String)

/-- A hook: its JavaScript function name (used in `failedHook`) and its
behavior, which may produce console writes and may throw. -/
structure Hook where
  hname : String
  run : LogHookArgs → Except JsValue (List LogEvent)

/-- What `console.error(x)` prints for a `JSON.stringify` result:
the string itself, or the text `undefined` when stringify returned
`undefined`. -/
def outStr : Option String → String
  | some s => s
  | none => "undefined"

/-- The `entry` object viewed as a serializable value (it is the
`originalEntry` field of the hook-failure record, src/index.ts line 99). -/
def entryAsSVal (e : LogHookArgs) : SVal :=
  SVal.freshObj [("logger", SVal.orig (.vStr e.logger)),
    ("ts", SVal.orig (.vStr e.ts)),
    ("level", SVal.orig (.vStr (levelName e.level))),
    ("msg", SVal.orig (.vStr e.msg)),
    ("obj", SVal.orig e.obj),
    ("formatted", SVal.orig (.vStr e.formatted))]

/-- The hook-failure record of src/index.ts lines 95-100: field order ts,
msg, err, obj, with no logger field. -/
def hookErrorRecord (ts2 : String) (errFields : List (String × SVal))
    (hookName : String) (entry : LogHookArgs) : SVal :=
  SVal.freshObj [("ts", SVal.orig (.vStr ts2)),
    ("msg", SVal.orig (.vStr "logger_hook_error")),
    ("err", SVal.freshObj errFields),
    ("obj", SVal.freshObj [("failedHook", SVal.orig (.vStr hookName)),
      ("originalEntry", entryAsSVal entry)])]

/-- The pipeline-failure record of src/index.ts lines 107-114: field order
ts, msg, err, obj, with no logger field. -/
def loggerErrorRecord (ts3 : String) (errFields : List (String × SVal))
    (msg : String) : SVal :=
  SVal.freshObj [("ts", SVal.orig (.vStr ts3)),
    ("msg", SVal.orig (.vStr "logger_error")),
    ("err", SVal.freshObj errFields),
    ("obj", SVal.freshObj [("msg", SVal.orig (.vStr msg))])]

/-- The text printed by the hook-failure handler (src/index.ts lines 94-101):
normalize the thrown value, then stringify the diagnostic record.  Either
step may itself throw, in which case the exception leaves the handler. -/
def hookErrorReport (heap : Heap) (fuel : Nat) (ts2 : String) (exc : JsValue)
    (hookName : String) (entry : LogHookArgs) : Except JsValue (Option String) :=
  match serializeError heap exc with
  | .error e => .error e
  | .ok fields => stringify heap fuel (hookErrorRecord ts2 fields hookName entry)

/-- The text printed by the outer failure handler (src/index.ts lines
106-115); as above, normalization or stringification may itself throw. -/
def loggerErrorReport (heap : Heap) (fuel : Nat) (ts3 : String) (exc : JsValue)
    (msg : String) : Except JsValue (Option String) :=
  match serializeError heap exc with
  | .error e => .error e
  | .ok fields => stringify heap fuel (loggerErrorRecord ts3 fields msg)

/-- The hook loop of src/index.ts lines 89-103, starting at hook position
`i` with `n` wall-clock reads already performed.  Returns the events in
order, the new clock counter, and `some e` when an exception escaped an
inner catch handler (it then propagates to the outer catch).  A hook that
throws is caught locally: the handler reads the clock, builds the
`logger_hook_error` record, and writes it directly to the error console
stream; the loop then continues with the next hook. -/
def runHooks (heap : Heap) (fuel : Nat) (clock : Nat → String)
    (entry : LogHookArgs) :
    List Hook → Nat → Nat → List LogEvent × Nat × Option JsValue
  | [], _, n => ([], n, none)
  | h :: rest, i, n =>
    match h.run entry with
    | .ok evs =>
      let (evs', n', exc) := runHooks heap fuel clock entry rest (i + 1) n
      (LogEvent.hookCalled i entry :: (evs ++ evs'), n', exc)
    | .error exc =>
      let ts2 := clock n
      match hookErrorReport heap fuel ts2 exc h.hname entry with
      | .ok s =>
        let (evs', n', exc') := runHooks heap fuel clock entry rest (i + 1) (n + 1)
        (LogEvent.hookCalled i entry :: LogEvent.tsRead ts2 ::
          LogEvent.consoleWrite .error (outStr s) :: evs', n', exc')
      | .error e2 =>
        ([LogEvent.hookCalled i entry, LogEvent.tsRead ts2], n + 1, some e2)

/-- The arguments of one `logAtLevel` call (src/index.ts lines 64-68). -/
structure LogCallArgs where
  level : LogLevel
  msg : String
  obj : JsValue

/-- The outer catch of src/index.ts lines 104-116: read the clock, build the
`logger_error` record and write it to the error console stream.  When the
handler itself throws (normalizing the exception or serializing the record),
the exception escapes to the caller. -/
def outerCatch (heap : Heap) (fuel : Nat) (clock : Nat → String)
    (evs : List LogEvent) (n : Nat) (exc : JsValue) (msg : String) :
    List LogEvent × Option JsValue :=
  let ts3 := clock n
  match loggerErrorReport heap fuel ts3 exc msg with
  | .ok s =>
    (evs ++ [LogEvent.tsRead ts3, LogEvent.consoleWrite .error (outStr s)], none)
  | .error e2 => (evs ++ [LogEvent.tsRead ts3], some e2)

/-- src/index.ts lines 64-117, `logAtLevel`.  Returns the events of the call
in order, and `some e` exactly when exception `e` propagates out of the call
to the caller.  The level filter (line 71) returns before the clock is read;
otherwise the record is built and formatted, the hooks run in order, and the
two catch layers apply as in the source. -/
def logAtLevel (heap : Heap) (fuel : Nat) (logger : String)
    (configuredLevel : LogLevel) (hooks : List Hook) (clock : Nat → String)
    (args : LogCallArgs) : List LogEvent × Option JsValue :=
  if levels.indexOf args.level < levels.indexOf configuredLevel then ([], none)
  else
    let ts := clock 0
    match formatMessage heap fuel logger ts args.msg args.obj with
    | .ok fmt =>
      let entry : LogHookArgs := ⟨logger, ts, args.level, args.msg, args.obj, outStr fmt⟩
      let (evs, n, exc) := runHooks heap fuel clock entry hooks 0 1
      match exc with
      | none => (LogEvent.tsRead ts :: evs, none)
      | some e => outerCatch heap fuel clock (LogEvent.tsRead ts :: evs) n e args.msg
    | .error e => outerCatch heap fuel clock [LogEvent.tsRead ts] 1 e args.msg

/-- src/index.ts lines 50-52: the default console hook forwards the
formatted text to the console stream matching the entry's level. -/
def consoleHook : Hook :=
  ⟨"consoleHook", fun a => .ok [LogEvent.consoleWrite a.level a.formatted]⟩

/-- The configuration captured by `createLogger` (src/index.ts lines 54-63),
with the source's defaults. -/
structure LoggerConfig where
  logger : String
  level : LogLevel := .debug
  hooks : List Hook := [consoleHook]

/-- src/index.ts lines 54-129, `createLogger`: every level method delegates
to `logAtLevel` with the captured configuration. -/
def createLogger (heap : Heap) (fuel : Nat) (clock : Nat → String)
    (cfg : LoggerConfig) :
    LogLevel → String → JsValue → List LogEvent × Option JsValue :=
  fun lvl msg obj =>
    logAtLevel heap fuel cfg.logger cfg.level cfg.hooks clock ⟨lvl, msg, obj⟩

example :
    logAtLevel [] 20 "log" .warn [consoleHook] (fun _ => "T")
      ⟨.info, "m", .vUndefined⟩ = ([], none) := rfl

example :
    (logAtLevel [] 20 "log" .debug [consoleHook] (fun _ => "T")
      ⟨.info, "m", .vUndefined⟩).2 = none := rfl

example :
    (logAtLevel [] 20 "log" .debug [consoleHook] (fun _ => "T")
      ⟨.info, "m", .vUndefined⟩).1.length = 3 := rfl

/-- A JSON document, used to state that serializer output is well-formed
pretty-printed JSON. -/
inductive Json where
  | jNull
  | jBool (b : Bool)
  | jNum (n : Int)
  | jStr (s : String)
  | jArr (elems : List Json)
  | jObj (fields : List (String × Json))
deriving Repr

mutual

/-- The canonical pretty-printing of a JSON document at nesting depth `d`
with a two-space indent: scalar literals, and objects and arrays laid out
one member per line as `JSON.stringify(_, _, 2)` does. -/
def renderJson : Nat → Json → String
  | _, .jNull => "null"
  | _, .jBool b => if b then "true" else "false"
  | _, .jNum n => toString n
  | _, .jStr s => quoteJsonString s
  | d, .jObj fields => renderObjParts d (renderJsonFields (d + 1) fields)
  | d, .jArr elems => renderArrParts d (renderJsonElems (d + 1) elems)

/-- The rendered `"key": value` lines of an object's fields. -/
def renderJsonFields : Nat → List (String × Json) → List String
  | _, [] => []
  | d, (k, j) :: rest =>
    (quoteJsonString k ++ ": " ++ renderJson d j) :: renderJsonFields d rest

/-- The rendered element lines of an array. -/
def renderJsonElems : Nat → List Json → List String
  | _, [] => []
  | d, j :: rest => renderJson d j :: renderJsonElems d rest

end

/-- Object members under the subtree-scoped visited set (companion of
`serNodeScoped`). -/
def serMembersScoped (serVal : SVal → Except JsValue (Option String)) :
    List (String × Except JsValue SVal) → Except JsValue (List String)
  | [] => .ok []
  | (k, g) :: rest =>
    match g with
    | .error e => .error e
    | .ok sv =>
      match serVal sv with
      | .error e => .error e
      | .ok r =>
        match serMembersScoped serVal rest with
        | .error e => .error e
        | .ok parts =>
          .ok (match r with
               | none => parts
               | some str => (quoteJsonString k ++ ": " ++ str) :: parts)

/-- Array elements under the subtree-scoped visited set (companion of
`serNodeScoped`). -/
def serElemsScoped (serVal : SVal → Except JsValue (Option String)) :
    List JsValue → Except JsValue (List String)
  | [] => .ok []
  | v :: rest =>
    match serVal (SVal.orig v) with
    | .error e => .error e
    | .ok r =>
      match serElemsScoped serVal rest with
      | .error e => .error e
      | .ok parts => .ok ((r.getD "null") :: parts)

/-- Modelled from the spec: section 4.2 step 2 reads "otherwise add it to
the visited-set for the duration of that subtree's traversal", that is, a
visited-set scoped to the path from the root — extended on the way down and
forgotten once the subtree completes, never shared across siblings.  This
serializer implements that wording; it exists to be compared with `serNode`,
which models the source (whose cache persists for the whole call). -/
def serNodeScoped (heap : Heap) : Nat → Nat → List Nat → SVal →
    Except JsValue (Option String)
  | 0, _, _, _ => .error rangeErrorVal
  | fuel + 1, depth, visited, SVal.freshObj fields =>
    match serMembersScoped (fun sv => serNodeScoped heap fuel (depth + 1) visited sv)
        (fields.map (fun p => (p.1, Except.ok p.2))) with
    | .ok parts => .ok (some (renderObjParts depth parts))
    | .error e => .error e
  | fuel + 1, depth, visited, SVal.orig v =>
    match v with
    | .vErr n m st ex c =>
      match serializeError heap (.vErr n m st ex c) with
      | .error e => .error e
      | .ok efields =>
        match serMembersScoped (fun sv => serNodeScoped heap fuel (depth + 1) visited sv)
            (efields.map (fun p => (p.1, Except.ok p.2))) with
        | .ok parts => .ok (some (renderObjParts depth parts))
        | .error e => .error e
    | .vRef a =>
      if visited.contains a then .ok none
      else
        match heap[a]? with
        | none => .ok none
        | some o =>
          match o.body with
          | .hObj fields =>
            match serMembersScoped
                (fun sv => serNodeScoped heap fuel (depth + 1) (visited ++ [a]) sv)
                (fields.map (fun p => (p.1, propGet p.2))) with
            | .ok parts => .ok (some (renderObjParts depth parts))
            | .error e => .error e
          | .hArr elems =>
            match serElemsScoped
                (fun sv => serNodeScoped heap fuel (depth + 1) (visited ++ [a]) sv)
                elems with
            | .ok parts => .ok (some (renderArrParts depth parts))
            | .error e => .error e
    | .vNull => .ok (some "null")
    | .vUndefined => .ok none
    | .vBool b => .ok (some (if b then "true" else "false"))
    | .vNum n => .ok (some (toString n))
    | .vStr s => .ok (some (quoteJsonString s))

/-- The spec-worded serializer at the root, companion of `stringify`. -/
def stringifyScoped (heap : Heap) (fuel : Nat) (value : SVal) :
    Except JsValue (Option String) :=
  serNodeScoped heap fuel 0 [] value

example :
    stringifyScoped
      [⟨some "[object Object]",
        .hObj [("x", .val (.vRef 1)), ("y", .val (.vRef 1))]⟩,
       ⟨some "[object Object]", .hObj []⟩]
      10 (SVal.orig (.vRef 0)) =
    .ok (some "\x7b\n  \"x\": \x7b\x7d,\n  \"y\": \x7b\x7d\n\x7d") := rfl

theorem lookup_cons {β : Type} (k k' : String) (v : β) (l : List (String × β)) :
    List.lookup k ((k', v) :: l) = if k = k' then some v else List.lookup k l := by
  by_cases h : k = k'
  · have hb : (k == k') = true := beq_iff_eq.mpr h
    simp [List.lookup, hb, h]
  · have hb : (k == k') = false := beq_eq_false_iff_ne.mpr h
    simp [List.lookup, hb, h]

theorem keyIn_cons (k k' : String) (v : SVal) (l : List (String × SVal)) :
    keyIn k ((k', v) :: l) = (decide (k' = k) || keyIn k l) := by
  simp [keyIn]

theorem keyIn_append (k : String) (l1 l2 : List (String × SVal)) :
    keyIn k (l1 ++ l2) = (keyIn k l1 || keyIn k l2) := by
  simp [keyIn, List.any_append]

theorem keyIn_false_lookup_none (k : String) (l : List (String × SVal))
    (h : keyIn k l = false) : List.lookup k l = none := by
  induction l with
  | nil => rfl
  | cons p rest ih =>
    obtain ⟨k', v'⟩ := p
    rw [keyIn_cons] at h
    rcases Bool.or_eq_false_iff.mp h with ⟨h1, h2⟩
    have hk : k ≠ k' := fun hkk => by simp [hkk] at h1
    rw [lookup_cons, if_neg hk, ih h2]

theorem lookup_append_left (k : String) (l1 l2 : List (String × SVal))
    (h : keyIn k l1 = true) :
    List.lookup k (l1 ++ l2) = List.lookup k l1 := by
  induction l1 with
  | nil => simp [keyIn] at h
  | cons p rest ih =>
    obtain ⟨k', v'⟩ := p
    by_cases hk : k = k'
    · rw [List.cons_append, lookup_cons, if_pos hk, lookup_cons, if_pos hk]
    · rw [keyIn_cons] at h
      have h1 : decide (k' = k) = false := decide_eq_false (fun hkk => hk hkk.symm)
      rw [h1, Bool.false_or] at h
      rw [List.cons_append, lookup_cons, if_neg hk, lookup_cons, if_neg hk, ih h]

theorem lookup_append_right (k : String) (l1 l2 : List (String × SVal))
    (h : keyIn k l1 = false) :
    List.lookup k (l1 ++ l2) = List.lookup k l2 := by
  induction l1 with
  | nil => rfl
  | cons p rest ih =>
    obtain ⟨k', v'⟩ := p
    rw [keyIn_cons] at h
    rcases Bool.or_eq_false_iff.mp h with ⟨h1, h2⟩
    have hk : k ≠ k' := fun hkk => by simp [hkk] at h1
    rw [List.cons_append, lookup_cons, if_neg hk, ih h2]

theorem upsert_lookup_self (k : String) (v : SVal) (l : List (String × SVal)) :
    List.lookup k (upsert k v l) = some v := by
  induction l with
  | nil => rw [upsert, lookup_cons, if_pos rfl]
  | cons p rest ih =>
    obtain ⟨k', v'⟩ := p
    by_cases h : k' = k
    · rw [upsert, if_pos h, lookup_cons, if_pos rfl]
    · rw [upsert, if_neg h, lookup_cons, if_neg (Ne.symm h), ih]

theorem upsert_lookup_ne (k k' : String) (v : SVal) (l : List (String × SVal))
    (h : k' ≠ k) : List.lookup k' (upsert k v l) = List.lookup k' l := by
  induction l with
  | nil => simp [upsert, lookup_cons, h]
  | cons p rest ih =>
    obtain ⟨k0, v0⟩ := p
    by_cases hk : k0 = k
    · subst hk; simp [upsert, lookup_cons, h]
    · simp [upsert, hk, lookup_cons, ih]

theorem dataProps_nil : dataProps [] = [] := rfl

theorem dataProps_cons (k : String) (v : JsValue)
    (rest : List (String × JsValue)) :
    dataProps ((k, v) :: rest) = (k, PropVal.val v) :: dataProps rest := rfl

theorem copyExtras_lookup_mem (k : String) (ex : List (String × PropVal)) :
    ∀ ser out, copyExtras ser ex = .ok out → keyIn k ser = true →
      List.lookup k out = List.lookup k ser := by
  induction ex with
  | nil =>
    intro ser out h _
    cases h
    rfl
  | cons p rest ih =>
    intro ser out h hser
    obtain ⟨k', pv⟩ := p
    rw [copyExtras] at h
    cases pv with
    | getterThrow e => cases h
    | val v =>
      simp only [readProp] at h
      by_cases hks : keyInSerialized k' ser = true
      · rw [if_pos hks] at h
        exact ih ser out h hser
      · rw [if_neg hks] at h
        rw [ih _ out h (by rw [keyIn_append, hser, Bool.true_or])]
        exact lookup_append_left k ser _ hser

theorem copyExtras_dataProps_ok (ex : List (String × JsValue)) :
    ∀ ser, ∃ out, copyExtras ser (dataProps ex) = .ok out := by
  induction ex with
  | nil => intro ser; exact ⟨ser, rfl⟩
  | cons p rest ih =>
    intro ser
    obtain ⟨k, v⟩ := p
    rw [dataProps_cons, copyExtras]
    simp only [readProp]
    by_cases hks : keyInSerialized k ser = true
    · rw [if_pos hks]
      exact ih ser
    · rw [if_neg hks]
      exact ih (ser ++ [(k, SVal.orig v)])

theorem copyExtras_lookup_new (k : String) (ex : List (String × JsValue)) :
    ∀ ser out, copyExtras ser (dataProps ex) = .ok out → keyIn k ser = false →
      objectProtoKeys.contains k = false →
      List.lookup k out = (List.lookup k ex).map (fun v => SVal.orig v) := by
  induction ex with
  | nil =>
    intro ser out h hser _
    cases h
    rw [keyIn_false_lookup_none k ser hser]; rfl
  | cons p rest ih =>
    intro ser out h hser hproto
    obtain ⟨k', v'⟩ := p
    rw [dataProps_cons, copyExtras] at h
    simp only [readProp] at h
    rw [lookup_cons]
    by_cases hk : k' = k
    · subst hk
      have hks : ¬keyInSerialized k' ser = true := by
        rw [keyInSerialized, hser, hproto]; exact Bool.false_ne_true
      rw [if_neg hks] at h
      rw [copyExtras_lookup_mem k' (dataProps rest) _ out h
          (by rw [keyIn_append, keyIn_cons]; simp),
        lookup_append_right k' ser _ hser, lookup_cons, if_pos rfl, if_pos rfl]
      rfl
    · rw [if_neg (fun hkk => hk hkk.symm)]
      by_cases hks : keyInSerialized k' ser = true
      · rw [if_pos hks] at h
        exact ih ser out h hser hproto
      · rw [if_neg hks] at h
        exact ih (ser ++ [(k', SVal.orig v')]) out h
          (by rw [keyIn_append, hser, keyIn_cons, decide_eq_false hk]; rfl) hproto

theorem except_ok_exists {ε α : Type} (e : Except ε α) (h : e.isOk = true) :
    ∃ a, e = .ok a := by
  cases e with
  | error e' => simp [Except.isOk, Except.toBool] at h
  | ok a => exact ⟨a, rfl⟩

/-- Every field other than `cause` of a successfully normalized error comes
from the base-plus-extras object built by the `Object.entries` copy loop;
the cause handling only ever touches the `cause` key. -/
theorem serializeError_vErr_lookup (heap : Heap) (n m : String)
    (st : Option String) (ex : List (String × PropVal)) (c : PropVal)
    (fields : List (String × SVal))
    (h : serializeError heap (.vErr n m st ex c) = .ok fields)
    (k : String) (hk : k ≠ "cause") :
    ∃ ser0,
      copyExtras
        [("name", SVal.orig (.vStr n)), ("message", SVal.orig (.vStr m)),
         ("stack", SVal.orig (stackVal st))] ex = .ok ser0 ∧
      List.lookup k fields = List.lookup k ser0 := by
  rw [serializeError] at h
  split at h
  · cases h
  · rename_i ser0 hco
    refine ⟨ser0, hco, ?_⟩
    split at h
    · cases h
    · cases h; rfl
    · split at h
      · cases h
        exact upsert_lookup_ne "cause" k _ _ hk
      · cases h
    · cases h; exact upsert_lookup_ne "cause" k _ _ hk
    · cases h; exact upsert_lookup_ne "cause" k _ _ hk
    · cases h; exact upsert_lookup_ne "cause" k _ _ hk
    · cases h; exact upsert_lookup_ne "cause" k _ _ hk
    · cases h; exact upsert_lookup_ne "cause" k _ _ hk

theorem serializeError_nonError (heap : Heap) (v : JsValue) (s : String)
    (hv : isJsError v = false) (hs : jsToString heap v = .ok s) :
    serializeError heap v =
      .ok [("name", SVal.orig (.vStr "NonError")),
           ("message", SVal.orig (.vStr s))] := by
  cases v with
  | vErr n m st ex c => simp [isJsError] at hv
  | vNull => rw [serializeError, hs]
  | vUndefined => rw [serializeError, hs]
  | vBool b => rw [serializeError, hs]
  | vNum n => rw [serializeError, hs]
  | vStr s0 => rw [serializeError, hs]
  | vRef a => rw [serializeError, hs]

/-- The `name`, `message` and `stack` fields of a successfully normalized
error always hold the error's own name, message and stack. -/
theorem serializeError_core_fields (heap : Heap) (n m : String)
    (st : Option String) (ex : List (String × PropVal)) (c : PropVal)
    (fields : List (String × SVal))
    (h : serializeError heap (.vErr n m st ex c) = .ok fields) :
    List.lookup "name" fields = some (SVal.orig (.vStr n)) ∧
    List.lookup "message" fields = some (SVal.orig (.vStr m)) ∧
    List.lookup "stack" fields = some (SVal.orig (stackVal st)) := by
  refine ⟨?_, ?_, ?_⟩
  · obtain ⟨ser0, hco, hl⟩ :=
      serializeError_vErr_lookup heap n m st ex c fields h "name" (by decide)
    rw [hl, copyExtras_lookup_mem "name" ex
      [("name", SVal.orig (.vStr n)), ("message", SVal.orig (.vStr m)),
       ("stack", SVal.orig (stackVal st))] ser0 hco rfl, lookup_cons,
      if_pos rfl]
  · obtain ⟨ser0, hco, hl⟩ :=
      serializeError_vErr_lookup heap n m st ex c fields h "message" (by decide)
    rw [hl, copyExtras_lookup_mem "message" ex
      [("name", SVal.orig (.vStr n)), ("message", SVal.orig (.vStr m)),
       ("stack", SVal.orig (stackVal st))] ser0 hco rfl, lookup_cons,
      if_neg (by decide), lookup_cons, if_pos rfl]
  · obtain ⟨ser0, hco, hl⟩ :=
      serializeError_vErr_lookup heap n m st ex c fields h "stack" (by decide)
    rw [hl, copyExtras_lookup_mem "stack" ex
      [("name", SVal.orig (.vStr n)), ("message", SVal.orig (.vStr m)),
       ("stack", SVal.orig (stackVal st))] ser0 hco rfl, lookup_cons,
      if_neg (by decide), lookup_cons, if_neg (by decide), lookup_cons,
      if_pos rfl]

/-- Once the extras copy has succeeded, the outcome of `serializeError` on
an `Error` is determined by the cause read alone: an `undefined` cause
leaves the object as is, every other successfully read non-error cause is
set verbatim under `cause`, and a throwing cause accessor propagates its
exception. -/
theorem serializeError_causeData (heap : Heap) (n m : String)
    (st : Option String) (ex : List (String × PropVal))
    (ser0 : List (String × SVal))
    (hs0 : copyExtras
      [("name", SVal.orig (.vStr n)), ("message", SVal.orig (.vStr m)),
       ("stack", SVal.orig (stackVal st))] ex = .ok ser0) :
    serializeError heap (.vErr n m st ex (.val .vUndefined)) = .ok ser0 ∧
    serializeError heap (.vErr n m st ex (.val .vNull)) =
      .ok (upsert "cause" (SVal.orig .vNull) ser0) ∧
    (∀ b, serializeError heap (.vErr n m st ex (.val (.vBool b))) =
      .ok (upsert "cause" (SVal.orig (.vBool b)) ser0)) ∧
    (∀ i, serializeError heap (.vErr n m st ex (.val (.vNum i))) =
      .ok (upsert "cause" (SVal.orig (.vNum i)) ser0)) ∧
    (∀ s, serializeError heap (.vErr n m st ex (.val (.vStr s))) =
      .ok (upsert "cause" (SVal.orig (.vStr s)) ser0)) ∧
    (∀ a, serializeError heap (.vErr n m st ex (.val (.vRef a))) =
      .ok (upsert "cause" (SVal.orig (.vRef a)) ser0)) ∧
    (∀ e, serializeError heap (.vErr n m st ex (.getterThrow e)) =
      .error e) := by
  refine ⟨?_, ?_, ?_, ?_, ?_, ?_, ?_⟩ <;> (try intro x) <;>
    rw [serializeError] <;> simp only [hs0]

/-- When the extras copy succeeds and the cause is itself an `Error` that
normalizes to `innf`, the outer error normalizes with `cause` set to the
fresh object `innf`. -/
theorem serializeError_causeErr (heap : Heap) (n m : String)
    (st : Option String) (ex : List (String × PropVal))
    (ser0 : List (String × SVal)) (cn cm : String) (cs : Option String)
    (cex : List (String × PropVal)) (cc : PropVal)
    (innf : List (String × SVal))
    (hs0 : copyExtras
      [("name", SVal.orig (.vStr n)), ("message", SVal.orig (.vStr m)),
       ("stack", SVal.orig (stackVal st))] ex = .ok ser0)
    (hinn : serializeError heap (.vErr cn cm cs cex cc) = .ok innf) :
    serializeError heap (.vErr n m st ex (.val (.vErr cn cm cs cex cc))) =
      .ok (upsert "cause" (SVal.freshObj innf) ser0) := by
  rw [serializeError]
  simp only [hs0, hinn]

/-- Claim C5 counterexample: `serializeError` can throw.  For a non-error
value whose string conversion throws — in JavaScript, for example
`serializeError(Object.create(null))`, since `String(Object.create(null))`
raises a TypeError — the exception of the `String(err)` call on
src/serialize-error.ts line 153 propagates out of `serializeError`. -/
theorem claim5_counterexample :
    serializeError [⟨none, HeapBody.hObj []⟩] (.vRef 0) = .error typeErrorVal := rfl

/-- Claim C5 (amended): `serializeError` returns without throwing whenever
every operation it performs on its argument succeeds: on any non-error
value whose string conversion succeeds; on any `Error` whose extras are
plain data properties and whose `cause` is a plain data non-error value;
and, compositionally, on an `Error` with data extras whose `cause` is an
`Error` that itself normalizes successfully.  It propagates an exception
whenever one of those reads throws: a throwing getter among the extras is
hit eagerly by the `Object.entries` enumeration and its exception escapes,
as does the exception of a throwing `cause` accessor, as does the failing
`String(err)` conversion of a non-error input. -/
theorem claim5_serializeError_no_throw :
    (∀ (heap : Heap) (v : JsValue) (s : String), isJsError v = false →
      jsToString heap v = .ok s → (serializeError heap v).isOk = true) ∧
    (∀ (heap : Heap) (n m : String) (st : Option String)
        (ex : List (String × JsValue)) (c : JsValue), isJsError c = false →
      (serializeError heap (.vErr n m st (dataProps ex) (.val c))).isOk =
        true) ∧
    (∀ (heap : Heap) (n m : String) (st : Option String)
        (ex : List (String × JsValue)) (cn cm : String) (cs : Option String)
        (cex : List (String × PropVal)) (cc : PropVal)
        (innf : List (String × SVal)),
      serializeError heap (.vErr cn cm cs cex cc) = .ok innf →
      (serializeError heap
        (.vErr n m st (dataProps ex)
          (.val (.vErr cn cm cs cex cc)))).isOk = true) ∧
    (∀ (heap : Heap) (n m : String) (st : Option String) (k : String)
        (exc : JsValue) (rest : List (String × PropVal)) (c : PropVal),
      serializeError heap
          (.vErr n m st ((k, .getterThrow exc) :: rest) c) = .error exc) ∧
    (∀ (heap : Heap) (n m : String) (st : Option String)
        (ex : List (String × JsValue)) (exc : JsValue),
      serializeError heap
          (.vErr n m st (dataProps ex) (.getterThrow exc)) = .error exc) := by
  refine ⟨?_, ?_, ?_, ?_, ?_⟩
  · intro heap v s hv hs
    rw [serializeError_nonError heap v s hv hs]; rfl
  · intro heap n m st ex c hc
    obtain ⟨ser0, hs0⟩ := copyExtras_dataProps_ok ex
      [("name", SVal.orig (.vStr n)), ("message", SVal.orig (.vStr m)),
       ("stack", SVal.orig (stackVal st))]
    have hd := serializeError_causeData heap n m st (dataProps ex) ser0 hs0
    cases c with
    | vErr cn cm cs cex cc => simp [isJsError] at hc
    | vUndefined => rw [hd.1]; rfl
    | vNull => rw [hd.2.1]; rfl
    | vBool b => rw [hd.2.2.1 b]; rfl
    | vNum i => rw [hd.2.2.2.1 i]; rfl
    | vStr s => rw [hd.2.2.2.2.1 s]; rfl
    | vRef a => rw [hd.2.2.2.2.2.1 a]; rfl
  · intro heap n m st ex cn cm cs cex cc innf hinn
    obtain ⟨ser0, hs0⟩ := copyExtras_dataProps_ok ex
      [("name", SVal.orig (.vStr n)), ("message", SVal.orig (.vStr m)),
       ("stack", SVal.orig (stackVal st))]
    rw [serializeError_causeErr heap n m st (dataProps ex) ser0
      cn cm cs cex cc innf hs0 hinn]
    rfl
  · intro heap n m st k exc rest c
    rfl
  · intro heap n m st ex exc
    obtain ⟨ser0, hs0⟩ := copyExtras_dataProps_ok ex
      [("name", SVal.orig (.vStr n)), ("message", SVal.orig (.vStr m)),
       ("stack", SVal.orig (stackVal st))]
    exact (serializeError_causeData heap n m st (dataProps ex) ser0
      hs0).2.2.2.2.2.2 exc

theorem claim5_witness :
    (serializeError []
      (.vErr "Error" "boom" none (dataProps []) (.val .vNull))).isOk = true ∧
    (serializeError [] (.vStr "oops")).isOk = true :=
  ⟨claim5_serializeError_no_throw.2.1 [] "Error" "boom" none [] .vNull rfl,
   claim5_serializeError_no_throw.1 [] (.vStr "oops") "oops" rfl rfl⟩

/-- Claim C6 counterexample: an own-enumerable extra property whose key is
none of name/message/stack/cause can still be skipped.  The source tests
`key in serialized` with the JavaScript `in` operator, which consults the
prototype chain; an extra property named `toString` (a key of
`Object.prototype`) is therefore not copied. -/
theorem claim6_counterexample :
    serializeError []
        (.vErr "Error" "m" (some "st")
          [("toString", PropVal.val (.vStr "x"))] (.val .vUndefined)) =
      .ok [("name", SVal.orig (.vStr "Error")),
           ("message", SVal.orig (.vStr "m")),
           ("stack", SVal.orig (.vStr "st"))] ∧
    List.lookup "toString"
      [("name", SVal.orig (.vStr "Error")),
       ("message", SVal.orig (.vStr "m")),
       ("stack", SVal.orig (.vStr "st"))] = none := ⟨rfl, rfl⟩

/-- Claim C6 (amended): extra own-enumerable properties are copied
first-set-wins; a key is skipped when already assigned (name, message,
stack, and the loop also never overrides what the later cause handling
writes) or when it is a key of `Object.prototype` (the `in` operator
consults the prototype chain).  In particular name, message and stack in
the output always equal the error's own name, message and stack. -/
theorem claim6_first_set_wins (heap : Heap) (n m : String)
    (st : Option String) (ex : List (String × JsValue)) (c : PropVal)
    (fields : List (String × SVal))
    (h : serializeError heap (.vErr n m st (dataProps ex) c) = .ok fields) :
    List.lookup "name" fields = some (SVal.orig (.vStr n)) ∧
    List.lookup "message" fields = some (SVal.orig (.vStr m)) ∧
    List.lookup "stack" fields = some (SVal.orig (stackVal st)) ∧
    (∀ k, k ≠ "name" → k ≠ "message" → k ≠ "stack" → k ≠ "cause" →
      objectProtoKeys.contains k = false →
      List.lookup k fields = (List.lookup k ex).map (fun v => SVal.orig v)) := by
  obtain ⟨h1, h2, h3⟩ :=
    serializeError_core_fields heap n m st (dataProps ex) c fields h
  refine ⟨h1, h2, h3, ?_⟩
  intro k hk1 hk2 hk3 hk4 hk5
  obtain ⟨ser0, hco, hl⟩ :=
    serializeError_vErr_lookup heap n m st (dataProps ex) c fields h k hk4
  rw [hl, copyExtras_lookup_new k ex _ ser0 hco ?_ hk5]
  rw [keyIn_cons, keyIn_cons, keyIn_cons,
    decide_eq_false (fun hh => hk1 hh.symm),
    decide_eq_false (fun hh => hk2 hh.symm),
    decide_eq_false (fun hh => hk3 hh.symm)]
  rfl

theorem claim6_witness :
    List.lookup "name"
      [("name", SVal.orig (.vStr "Error")), ("message", SVal.orig (.vStr "boom")),
       ("stack", SVal.orig (.vStr "S")), ("code", SVal.orig (.vStr "E"))] =
      some (SVal.orig (.vStr "Error")) ∧
    List.lookup "code"
      [("name", SVal.orig (.vStr "Error")), ("message", SVal.orig (.vStr "boom")),
       ("stack", SVal.orig (.vStr "S")), ("code", SVal.orig (.vStr "E"))] =
      some (SVal.orig (.vStr "E")) := by
  have h := claim6_first_set_wins [] "Error" "boom" (some "S")
    [("code", .vStr "E"), ("name", .vStr "shadow")] (.val .vUndefined)
    [("name", SVal.orig (.vStr "Error")), ("message", SVal.orig (.vStr "boom")),
     ("stack", SVal.orig (.vStr "S")), ("code", SVal.orig (.vStr "E"))] rfl
  exact ⟨h.1,
    (h.2.2.2 "code" (by decide) (by decide) (by decide) (by decide) rfl).trans rfl⟩

/-- Claim C7: `serializeError` normalizes by case.  A non-error value whose
string conversion yields `s` maps to exactly `name NonError, message s`; the
concrete error `new Error("boom")` with extra enumerable `code = "E"` and a
stack beginning `Error: boom` normalizes to name Error, message boom, the
stack (which contains `Error: boom`), and code E; and an error with data
extras whose cause is itself an error that normalizes successfully gets as
`cause` the recursively normalized inner error, carrying the inner name and
message. -/
theorem claim7_serializeError_cases :
    (∀ (heap : Heap) (v : JsValue) (s : String), isJsError v = false →
      jsToString heap v = .ok s →
      serializeError heap v =
        .ok [("name", SVal.orig (.vStr "NonError")),
             ("message", SVal.orig (.vStr s))]) ∧
    (serializeError []
        (.vErr "Error" "boom" (some "Error: boom\n    at test")
          [("code", PropVal.val (.vStr "E"))] (.val .vUndefined)) =
      .ok [("name", SVal.orig (.vStr "Error")),
           ("message", SVal.orig (.vStr "boom")),
           ("stack", SVal.orig (.vStr "Error: boom\n    at test")),
           ("code", SVal.orig (.vStr "E"))]) ∧
    (∃ tail, "Error: boom\n    at test" = "Error: boom" ++ tail) ∧
    (∀ (heap : Heap) (n1 m1 : String) (st1 : Option String)
        (ex1 : List (String × JsValue)) (n2 m2 : String) (st2 : Option String)
        (ex2 : List (String × PropVal)) (c2 : PropVal)
        (innf : List (String × SVal)),
      serializeError heap (.vErr n2 m2 st2 ex2 c2) = .ok innf →
      ∃ outf,
        serializeError heap
            (.vErr n1 m1 st1 (dataProps ex1)
              (.val (.vErr n2 m2 st2 ex2 c2))) = .ok outf ∧
        List.lookup "cause" outf = some (SVal.freshObj innf) ∧
        List.lookup "name" innf = some (SVal.orig (.vStr n2)) ∧
        List.lookup "message" innf = some (SVal.orig (.vStr m2))) := by
  refine ⟨serializeError_nonError, rfl, ⟨"\n    at test", rfl⟩, ?_⟩
  intro heap n1 m1 st1 ex1 n2 m2 st2 ex2 c2 innf hinn
  obtain ⟨ser0, hs0⟩ := copyExtras_dataProps_ok ex1
    [("name", SVal.orig (.vStr n1)), ("message", SVal.orig (.vStr m1)),
     ("stack", SVal.orig (stackVal st1))]
  have houter := serializeError_causeErr heap n1 m1 st1 (dataProps ex1) ser0
    n2 m2 st2 ex2 c2 innf hs0 hinn
  obtain ⟨hn, hm, _⟩ :=
    serializeError_core_fields heap n2 m2 st2 ex2 c2 innf hinn
  exact ⟨_, houter, upsert_lookup_self _ _ _, hn, hm⟩

theorem claim7_witness :
    serializeError [] (.vNum 3) =
      .ok [("name", SVal.orig (.vStr "NonError")),
           ("message", SVal.orig (.vStr "3"))] :=
  claim7_serializeError_cases.1 [] (.vNum 3) "3" rfl rfl

/-- Claim C10: a `cause` property equal to `null` is not treated as absent:
the source tests `cause !== undefined`, so a null cause is copied verbatim
into the result; more generally any successfully read data cause other than
`undefined` produces a `cause` field, and whenever normalization succeeds
with a cause other than `undefined` the result carries a `cause` field. -/
theorem claim10_null_cause :
    (∀ (heap : Heap) (n m : String) (st : Option String)
        (ex : List (String × JsValue)),
      ∃ fields,
        serializeError heap (.vErr n m st (dataProps ex) (.val .vNull)) =
          .ok fields ∧
        List.lookup "cause" fields = some (SVal.orig .vNull)) ∧
    (∀ (heap : Heap) (n m : String) (st : Option String)
        (ex : List (String × JsValue)) (c : JsValue),
      isJsError c = false → c ≠ .vUndefined →
      ∃ fields,
        serializeError heap (.vErr n m st (dataProps ex) (.val c)) =
          .ok fields ∧
        (List.lookup "cause" fields).isSome = true) ∧
    (∀ (heap : Heap) (n m : String) (st : Option String)
        (ex : List (String × PropVal)) (c : PropVal)
        (fields : List (String × SVal)),
      serializeError heap (.vErr n m st ex c) = .ok fields →
      c ≠ .val .vUndefined →
      (List.lookup "cause" fields).isSome = true) := by
  refine ⟨?_, ?_, ?_⟩
  · intro heap n m st ex
    obtain ⟨ser0, hs0⟩ := copyExtras_dataProps_ok ex
      [("name", SVal.orig (.vStr n)), ("message", SVal.orig (.vStr m)),
       ("stack", SVal.orig (stackVal st))]
    exact ⟨_, (serializeError_causeData heap n m st (dataProps ex) ser0
      hs0).2.1, upsert_lookup_self _ _ _⟩
  · intro heap n m st ex c hc hcu
    obtain ⟨ser0, hs0⟩ := copyExtras_dataProps_ok ex
      [("name", SVal.orig (.vStr n)), ("message", SVal.orig (.vStr m)),
       ("stack", SVal.orig (stackVal st))]
    have hd := serializeError_causeData heap n m st (dataProps ex) ser0 hs0
    cases c with
    | vErr cn cm cs cex cc => simp [isJsError] at hc
    | vUndefined => exact absurd rfl hcu
    | vNull =>
      exact ⟨_, hd.2.1, by rw [upsert_lookup_self _ _ _]; rfl⟩
    | vBool b =>
      exact ⟨_, hd.2.2.1 b, by rw [upsert_lookup_self _ _ _]; rfl⟩
    | vNum i =>
      exact ⟨_, hd.2.2.2.1 i, by rw [upsert_lookup_self _ _ _]; rfl⟩
    | vStr s =>
      exact ⟨_, hd.2.2.2.2.1 s, by rw [upsert_lookup_self _ _ _]; rfl⟩
    | vRef a =>
      exact ⟨_, hd.2.2.2.2.2.1 a, by rw [upsert_lookup_self _ _ _]; rfl⟩
  · intro heap n m st ex c fields h hc
    rw [serializeError] at h
    split at h
    · cases h
    · split at h
      · cases h
      · exact absurd rfl hc
      · split at h
        · cases h
          rw [upsert_lookup_self _ _ _]; rfl
        · cases h
      · cases h; rw [upsert_lookup_self _ _ _]; rfl
      · cases h; rw [upsert_lookup_self _ _ _]; rfl
      · cases h; rw [upsert_lookup_self _ _ _]; rfl
      · cases h; rw [upsert_lookup_self _ _ _]; rfl
      · cases h; rw [upsert_lookup_self _ _ _]; rfl

theorem claim10_witness :
    ∃ fields,
      serializeError [] (.vErr "Error" "m" none (dataProps []) (.val .vNull)) =
        .ok fields ∧
      (List.lookup "cause" fields).isSome = true :=
  claim10_null_cause.2.1 [] "Error" "m" none [] .vNull rfl
    (fun h => JsValue.noConfusion h)


/-- Serializing members can only extend the identity cache, provided the
node serializer can only extend it. -/
theorem serMembers_cache_extends
    (serVal : List Nat → SVal → Except JsValue (Option String × List Nat))
    (hsv : ∀ c sv r c', serVal c sv = .ok (r, c') → ∃ t, c' = c ++ t) :
    ∀ (ms : List (String × Except JsValue SVal)) (cache : List Nat)
      (parts : List String) (cache'' : List Nat),
      serMembers serVal cache ms = .ok (parts, cache'') →
      ∃ t, cache'' = cache ++ t := by
  intro ms
  induction ms with
  | nil =>
    intro cache parts c'' h
    simp only [serMembers] at h
    cases h
    exact ⟨[], by simp⟩
  | cons p rest ih =>
    intro cache parts c'' h
    obtain ⟨k, g⟩ := p
    simp only [serMembers] at h
    split at h
    · cases h
    · rename_i sv
      split at h
      · cases h
      · rename_i r c1 h1
        split at h
        · cases h
        · rename_i parts1 c2 h2
          obtain ⟨t1, ht1⟩ := hsv cache sv r c1 h1
          obtain ⟨t2, ht2⟩ := ih c1 parts1 c2 h2
          cases h
          exact ⟨t1 ++ t2, by rw [ht2, ht1, List.append_assoc]⟩
/-- Serializing array elements can only extend the identity cache, provided
the node serializer can only extend it. -/
theorem serElems_cache_extends
    (serVal : List Nat → SVal → Except JsValue (Option String × List Nat))
    (hsv : ∀ c sv r c', serVal c sv = .ok (r, c') → ∃ t, c' = c ++ t) :
    ∀ (vs : List JsValue) (cache : List Nat)
      (parts : List String) (cache'' : List Nat),
      serElems serVal cache vs = .ok (parts, cache'') →
      ∃ t, cache'' = cache ++ t := by
  intro vs
  induction vs with
  | nil =>
    intro cache parts c'' h
    simp only [serElems] at h
    cases h
    exact ⟨[], by simp⟩
  | cons v rest ih =>
    intro cache parts c'' h
    simp only [serElems] at h
    split at h
    · cases h
    · rename_i r c1 h1
      split at h
      · cases h
      · rename_i parts1 c2 h2
        obtain ⟨t1, ht1⟩ := hsv cache _ r c1 h1
        obtain ⟨t2, ht2⟩ := ih c1 parts1 c2 h2
        cases h
        exact ⟨t1 ++ t2, by rw [ht2, ht1, List.append_assoc]⟩

/-- The identity cache only ever grows: whatever `serNode` returns, the new
cache is the old one with entries appended — nothing is ever removed for the
remainder of the serialization. -/
theorem serNode_cache_extends (heap : Heap) :
    ∀ (fuel depth : Nat) (cache : List Nat) (sv : SVal) (r : Option String)
      (cache' : List Nat),
      serNode heap fuel depth cache sv = .ok (r, cache') →
      ∃ t, cache' = cache ++ t := by
  intro fuel
  induction fuel with
  | zero => intro depth cache sv r cache' h; cases h
  | succ fuel ih =>
    intro depth cache sv r cache' h
    have hsv : ∀ c sv' r' c',
        serNode heap fuel (depth + 1) c sv' = .ok (r', c') →
        ∃ t, c' = c ++ t := fun c sv' r' c' h' => ih (depth + 1) c sv' r' c' h'
    cases sv with
    | freshObj fields =>
      simp only [serNode] at h
      split at h
      · rename_i parts1 c1 h1
        obtain ⟨t, ht⟩ := serMembers_cache_extends _ hsv _ cache parts1 c1 h1
        cases h
        exact ⟨t, ht⟩
      · cases h
    | orig v =>
      cases v with
      | vErr n m st ex c =>
        simp only [serNode] at h
        split at h
        · cases h
        · rename_i efields hse
          split at h
          · rename_i parts1 c1 h1
            obtain ⟨t, ht⟩ := serMembers_cache_extends _ hsv _ cache parts1 c1 h1
            cases h
            exact ⟨t, ht⟩
          · cases h
      | vRef a =>
        simp only [serNode] at h
        by_cases hc : cache.contains a = true
        · rw [if_pos hc] at h
          cases h
          exact ⟨[], by simp⟩
        · rw [if_neg hc] at h
          split at h
          · cases h
            exact ⟨[], by simp⟩
          · rename_i o ho
            split at h
            · rename_i fields hbody
              split at h
              · rename_i parts1 c1 h1
                obtain ⟨t, ht⟩ :=
                  serMembers_cache_extends _ hsv _ (cache ++ [a]) parts1 c1 h1
                cases h
                exact ⟨[a] ++ t, by rw [ht, List.append_assoc]⟩
              · cases h
            · rename_i elems hbody
              split at h
              · rename_i parts1 c1 h1
                obtain ⟨t, ht⟩ :=
                  serElems_cache_extends _ hsv _ (cache ++ [a]) parts1 c1 h1
                cases h
                exact ⟨[a] ++ t, by rw [ht, List.append_assoc]⟩
              · cases h
      | vNull => cases h; exact ⟨[], by simp⟩
      | vUndefined => cases h; exact ⟨[], by simp⟩
      | vBool b => cases h; exact ⟨[], by simp⟩
      | vNum n => cases h; exact ⟨[], by simp⟩
      | vStr s => cases h; exact ⟨[], by simp⟩

/-- A composite node whose address is already in the identity cache is
omitted (the replacer returns `undefined`), and the cache is unchanged. -/
theorem serNode_ref_in_cache (heap : Heap) (fuel depth : Nat)
    (cache : List Nat) (a : Nat) (h : cache.contains a = true) :
    serNode heap (fuel + 1) depth cache (SVal.orig (.vRef a)) =
      .ok (none, cache) := by
  simp only [serNode]
  rw [if_pos h]

/-- A composite node not yet visited is pushed onto the cache, and the push
persists: the resulting cache extends `cache ++ [a]`. -/
theorem serNode_ref_pushes (heap : Heap) (fuel depth : Nat)
    (cache : List Nat) (a : Nat) (o : HeapObj) (r : Option String)
    (cache' : List Nat) (hc : cache.contains a = false)
    (ho : heap[a]? = some o)
    (h : serNode heap (fuel + 1) depth cache (SVal.orig (.vRef a)) =
      .ok (r, cache')) :
    ∃ t, cache' = (cache ++ [a]) ++ t := by
  simp only [serNode, ho] at h
  rw [if_neg (by rw [hc]; exact Bool.false_ne_true)] at h
  have hsv : ∀ c sv' r' c',
      serNode heap fuel (depth + 1) c sv' = .ok (r', c') →
      ∃ t, c' = c ++ t :=
    fun c sv' r' c' h' => serNode_cache_extends heap fuel (depth + 1) c sv' r' c' h'
  cases hbody : o.body with
  | hObj fields =>
    simp only [hbody] at h
    split at h
    · rename_i parts1 c1 h1
      obtain ⟨t, ht⟩ := serMembers_cache_extends _ hsv _ (cache ++ [a]) parts1 c1 h1
      cases h
      exact ⟨t, ht⟩
    · cases h
  | hArr elems =>
    simp only [hbody] at h
    split at h
    · rename_i parts1 c1 h1
      obtain ⟨t, ht⟩ := serElems_cache_extends _ hsv _ (cache ++ [a]) parts1 c1 h1
      cases h
      exact ⟨t, ht⟩
    · cases h

/-- Claim C4 counterexample: the claim describes the visited-set entry as
lasting "for the duration of that subtree's traversal only", but the
source's cache persists for the whole serialization.  On a non-cyclic
shared reference (`b = {}; a = {x: b, y: b}`) the source omits the second
occurrence, while the subtree-scoped algorithm the claim describes emits
both. -/
theorem claim4_counterexample :
    stringify
      [⟨some "[object Object]", .hObj [("x", .val (.vRef 1)), ("y", .val (.vRef 1))]⟩,
       ⟨some "[object Object]", .hObj []⟩] 10 (SVal.orig (.vRef 0)) =
      .ok (some "\x7b\n  \"x\": \x7b\x7d\n\x7d") ∧
    stringifyScoped
      [⟨some "[object Object]", .hObj [("x", .val (.vRef 1)), ("y", .val (.vRef 1))]⟩,
       ⟨some "[object Object]", .hObj []⟩] 10 (SVal.orig (.vRef 0)) =
      .ok (some "\x7b\n  \"x\": \x7b\x7d,\n  \"y\": \x7b\x7d\n\x7d") ∧
    ("\x7b\n  \"x\": \x7b\x7d\n\x7d" : String) ≠
      "\x7b\n  \"x\": \x7b\x7d,\n  \"y\": \x7b\x7d\n\x7d" :=
  ⟨rfl, rfl, by decide⟩

/-- Claim C4 (amended): every non-null composite node is checked against
the visited-set keyed by identity; a node already present is omitted (the
key dropped, the cache unchanged), and otherwise the node is added to the
visited-set, where it persists for the remainder of the whole serialization
(the cache only ever grows).  In particular serializing
`a = {key: "value"}; a.self = a` terminates, drops the `self` slot and
keeps the sibling key intact. -/
theorem claim4_visited_set :
    (∀ (heap : Heap) (fuel depth : Nat) (cache : List Nat) (a : Nat),
      cache.contains a = true →
      serNode heap (fuel + 1) depth cache (SVal.orig (.vRef a)) =
        .ok (none, cache)) ∧
    (∀ (heap : Heap) (fuel depth : Nat) (cache : List Nat) (a : Nat)
        (o : HeapObj) (r : Option String) (cache' : List Nat),
      cache.contains a = false → heap[a]? = some o →
      serNode heap (fuel + 1) depth cache (SVal.orig (.vRef a)) =
        .ok (r, cache') →
      ∃ t, cache' = (cache ++ [a]) ++ t) ∧
    (∀ (heap : Heap) (fuel depth : Nat) (cache : List Nat) (sv : SVal)
        (r : Option String) (cache' : List Nat),
      serNode heap fuel depth cache sv = .ok (r, cache') →
      ∃ t, cache' = cache ++ t) ∧
    stringify
      [⟨some "[object Object]",
        .hObj [("key", .val (.vStr "value")), ("self", .val (.vRef 0))]⟩]
      10 (SVal.orig (.vRef 0)) =
      .ok (some "\x7b\n  \"key\": \"value\"\n\x7d") :=
  ⟨fun heap fuel depth cache a h =>
      serNode_ref_in_cache heap fuel depth cache a h,
   fun heap fuel depth cache a o r c' hc ho h =>
      serNode_ref_pushes heap fuel depth cache a o r c' hc ho h,
   fun heap fuel depth cache sv r c' h =>
      serNode_cache_extends heap fuel depth cache sv r c' h,
   rfl⟩

theorem claim4_witness :
    (serNode [] 1 0 [5] (SVal.orig (.vRef 5)) = .ok (none, [5])) ∧
    (∃ t, ([0] : List Nat) = (([] : List Nat) ++ [0]) ++ t) ∧
    (∃ t, ([] : List Nat) = ([] : List Nat) ++ t) :=
  ⟨claim4_visited_set.1 [] 0 0 [5] 5 rfl,
   claim4_visited_set.2.1 [⟨some "x", .hObj []⟩] 0 0 [] 0
     ⟨some "x", .hObj []⟩ (some "\x7b\x7d") [0] rfl rfl rfl,
   claim4_visited_set.2.2.1 [] 1 0 [] (SVal.orig .vNull) (some "null") [] rfl⟩

/-- Claim C9: the visited cache persists for the entire serialization and
entries are never removed after a subtree completes, so a shared (DAG-like,
non-cyclic) reference is emitted at the first position visited and omitted
at every later occurrence — concretely, for `b = {}; a = {x: b, y: b}` the
output keeps `x` and drops `y`. -/
theorem claim9_persistent_cache :
    (∀ (heap : Heap) (fuel depth : Nat) (cache : List Nat) (sv : SVal)
        (r : Option String) (cache' : List Nat),
      serNode heap fuel depth cache sv = .ok (r, cache') →
      ∃ t, cache' = cache ++ t) ∧
    (∀ (heap : Heap) (fuel depth : Nat) (cache : List Nat) (a : Nat),
      cache.contains a = true →
      serNode heap (fuel + 1) depth cache (SVal.orig (.vRef a)) =
        .ok (none, cache)) ∧
    stringify
      [⟨some "[object Object]", .hObj [("x", .val (.vRef 1)), ("y", .val (.vRef 1))]⟩,
       ⟨some "[object Object]", .hObj []⟩] 10 (SVal.orig (.vRef 0)) =
      .ok (some "\x7b\n  \"x\": \x7b\x7d\n\x7d") :=
  ⟨fun heap fuel depth cache sv r c' h =>
      serNode_cache_extends heap fuel depth cache sv r c' h,
   fun heap fuel depth cache a h =>
      serNode_ref_in_cache heap fuel depth cache a h,
   rfl⟩

theorem claim9_witness :
    (∃ t, ([7] : List Nat) = [7] ++ t) ∧
    (serNode [] 1 0 [3] (SVal.orig (.vRef 3)) = .ok (none, [3])) :=
  ⟨claim9_persistent_cache.1 [] 1 0 [7] (SVal.orig (.vStr "a"))
      (some (quoteJsonString "a")) [7] rfl,
   claim9_persistent_cache.2.1 [] 0 0 [3] 3 rfl⟩

/-- When every hook returns normally, the dispatch loop raises nothing and
invokes hook `i + j` (for each position `j`) with the shared entry. -/
theorem runHooks_all_ok (heap : Heap) (fuel : Nat) (clock : Nat → String)
    (entry : LogHookArgs) :
    ∀ (hooks : List Hook) (i n : Nat),
      (∀ h ∈ hooks, ∀ e, (h.run e).isOk = true) →
      (runHooks heap fuel clock entry hooks i n).2.2 = none ∧
      (∀ j, j < hooks.length →
        LogEvent.hookCalled (i + j) entry ∈
          (runHooks heap fuel clock entry hooks i n).1) := by
  intro hooks
  induction hooks with
  | nil =>
    intro i n _
    exact ⟨rfl, fun j hj => absurd hj (by simp)⟩
  | cons h rest ih =>
    intro i n hok
    obtain ⟨evs, hrun⟩ := except_ok_exists _ (hok h (List.mem_cons_self h rest) entry)
    have ihr := ih (i + 1) n (fun h' hh e => hok h' (List.mem_cons_of_mem h hh) e)
    constructor
    · simp only [runHooks, hrun]
      exact ihr.1
    · intro j hj
      simp only [runHooks, hrun]
      cases j with
      | zero => exact List.mem_cons_self _ _
      | succ j' =>
        apply List.mem_cons_of_mem
        apply List.mem_append_right
        have := ihr.2 j' (by simpa using Nat.lt_of_succ_lt_succ hj)
        have harith : i + 1 + j' = i + (j' + 1) := by omega
        rw [harith] at this
        exact this


/-- src/index.ts line 71: a call below the configured level returns
immediately — no event at all (no clock read, no hook, no console write)
and no exception. -/
theorem logAtLevel_filtered (heap : Heap) (fuel : Nat) (logger : String)
    (cfgLevel : LogLevel) (hooks : List Hook) (clock : Nat → String)
    (args : LogCallArgs)
    (hlv : levels.indexOf args.level < levels.indexOf cfgLevel) :
    logAtLevel heap fuel logger cfgLevel hooks clock args = ([], none) := by
  simp only [logAtLevel]
  rw [if_pos hlv]

/-- A call that passes the filter and whose record serializes: when the
hook loop raises nothing, the call returns the clock read followed by the
loop's events, and no exception. -/
theorem logAtLevel_pass_none (heap : Heap) (fuel : Nat) (logger : String)
    (cfgLevel : LogLevel) (hooks : List Hook) (clock : Nat → String)
    (args : LogCallArgs) (fmt : Option String) (entry : LogHookArgs)
    (hlv : ¬ levels.indexOf args.level < levels.indexOf cfgLevel)
    (hfmt : formatMessage heap fuel logger (clock 0) args.msg args.obj = .ok fmt)
    (hentry : entry = ⟨logger, clock 0, args.level, args.msg, args.obj, outStr fmt⟩)
    (hexc : (runHooks heap fuel clock entry hooks 0 1).2.2 = none) :
    logAtLevel heap fuel logger cfgLevel hooks clock args =
      (LogEvent.tsRead (clock 0) :: (runHooks heap fuel clock entry hooks 0 1).1,
       none) := by
  subst hentry
  simp only [logAtLevel]
  rw [if_neg hlv]
  rcases hr : runHooks heap fuel clock
    ⟨logger, clock 0, args.level, args.msg, args.obj, outStr fmt⟩ hooks 0 1
    with ⟨evs, n, exc⟩
  rw [hr] at hexc
  simp only at hexc
  subst hexc
  simp only [hfmt, hr]

/-- A call that passes the filter and whose record serializes: when an
exception escapes an inner catch handler, the outer catch takes over. -/
theorem logAtLevel_pass_some (heap : Heap) (fuel : Nat) (logger : String)
    (cfgLevel : LogLevel) (hooks : List Hook) (clock : Nat → String)
    (args : LogCallArgs) (fmt : Option String) (entry : LogHookArgs)
    (e : JsValue)
    (hlv : ¬ levels.indexOf args.level < levels.indexOf cfgLevel)
    (hfmt : formatMessage heap fuel logger (clock 0) args.msg args.obj = .ok fmt)
    (hentry : entry = ⟨logger, clock 0, args.level, args.msg, args.obj, outStr fmt⟩)
    (hexc : (runHooks heap fuel clock entry hooks 0 1).2.2 = some e) :
    logAtLevel heap fuel logger cfgLevel hooks clock args =
      outerCatch heap fuel clock
        (LogEvent.tsRead (clock 0) :: (runHooks heap fuel clock entry hooks 0 1).1)
        (runHooks heap fuel clock entry hooks 0 1).2.1 e args.msg := by
  subst hentry
  simp only [logAtLevel]
  rw [if_neg hlv]
  rcases hr : runHooks heap fuel clock
    ⟨logger, clock 0, args.level, args.msg, args.obj, outStr fmt⟩ hooks 0 1
    with ⟨evs, n, exc⟩
  rw [hr] at hexc
  simp only at hexc
  subst hexc
  simp only [hfmt, hr]

/-- A call that passes the filter but whose record construction or
serialization throws goes to the outer catch with only the clock read
performed. -/
theorem logAtLevel_format_error (heap : Heap) (fuel : Nat) (logger : String)
    (cfgLevel : LogLevel) (hooks : List Hook) (clock : Nat → String)
    (args : LogCallArgs) (e : JsValue)
    (hlv : ¬ levels.indexOf args.level < levels.indexOf cfgLevel)
    (hfmt : formatMessage heap fuel logger (clock 0) args.msg args.obj = .error e) :
    logAtLevel heap fuel logger cfgLevel hooks clock args =
      outerCatch heap fuel clock [LogEvent.tsRead (clock 0)] 1 e args.msg := by
  simp only [logAtLevel]
  rw [if_neg hlv]
  simp only [hfmt]


/-- The outer catch lets an exception escape to the caller exactly when its
own report (normalizing the thrown value and serializing the
`logger_error` record) throws. -/
theorem outerCatch_snd_some (heap : Heap) (fuel : Nat) (clock : Nat → String)
    (evs : List LogEvent) (n : Nat) (exc : JsValue) (msg : String)
    (e2 : JsValue) (h : (outerCatch heap fuel clock evs n exc msg).2 = some e2) :
    loggerErrorReport heap fuel (clock n) exc msg = .error e2 := by
  simp only [outerCatch] at h
  split at h
  · simp at h
  · rename_i e2' hrep
    simp only at h
    cases h
    exact hrep

/-- Claim C1 (amended): the two failure boundaries are exhaustive except
for failures of the failure reporting itself.  An exception escapes
`logAtLevel` to the caller only when the outer handler's own
normalization/serialization of the diagnostic record throws; in particular,
whenever record serialization succeeds and every hook returns normally, the
call returns with no exception. -/
theorem claim1_exception_containment :
    ∀ (heap : Heap) (fuel : Nat) (logger : String) (cfgLevel : LogLevel)
      (hooks : List Hook) (clock : Nat → String) (args : LogCallArgs),
      (∀ e2, (logAtLevel heap fuel logger cfgLevel hooks clock args).2 = some e2 →
        ∃ exc ts3, loggerErrorReport heap fuel ts3 exc args.msg = .error e2) ∧
      (¬ levels.indexOf args.level < levels.indexOf cfgLevel →
        ∀ fmt, formatMessage heap fuel logger (clock 0) args.msg args.obj = .ok fmt →
          (∀ h ∈ hooks, ∀ e, (h.run e).isOk = true) →
          (logAtLevel heap fuel logger cfgLevel hooks clock args).2 = none) := by
  intro heap fuel logger cfgLevel hooks clock args
  constructor
  · intro e2 h
    by_cases hlv : levels.indexOf args.level < levels.indexOf cfgLevel
    · rw [logAtLevel_filtered heap fuel logger cfgLevel hooks clock args hlv] at h
      cases h
    · rcases hfmt : formatMessage heap fuel logger (clock 0) args.msg args.obj
        with e | fmt
      · rw [logAtLevel_format_error heap fuel logger cfgLevel hooks clock args e
          hlv hfmt] at h
        exact ⟨e, clock 1, outerCatch_snd_some _ _ _ _ _ _ _ _ h⟩
      · rcases hexc : (runHooks heap fuel clock
            ⟨logger, clock 0, args.level, args.msg, args.obj, outStr fmt⟩
            hooks 0 1).2.2 with _ | e
        · rw [logAtLevel_pass_none heap fuel logger cfgLevel hooks clock args
            fmt _ hlv hfmt rfl hexc] at h
          cases h
        · rw [logAtLevel_pass_some heap fuel logger cfgLevel hooks clock args
            fmt _ e hlv hfmt rfl hexc] at h
          exact ⟨e, _, outerCatch_snd_some _ _ _ _ _ _ _ _ h⟩
  · intro hlv fmt hfmt hok
    have hall := runHooks_all_ok heap fuel clock
      ⟨logger, clock 0, args.level, args.msg, args.obj, outStr fmt⟩ hooks 0 1 hok
    rw [logAtLevel_pass_none heap fuel logger cfgLevel hooks clock args fmt _
      hlv hfmt rfl hall.1]

/-- Claim C3 (amended): when ordinal(calledLevel) < ordinal(configuredLevel)
the call returns immediately — no timestamp capture, no record
construction, no serialization (the trace is empty); when the ordinal
check passes, the call reaches the hooks provided the record serialization
succeeded (and the hooks return normally): every configured hook is
invoked with the entry. -/
theorem claim3_level_filter :
    ∀ (heap : Heap) (fuel : Nat) (logger : String) (cfgLevel : LogLevel)
      (hooks : List Hook) (clock : Nat → String) (args : LogCallArgs),
      (levels.indexOf args.level < levels.indexOf cfgLevel →
        logAtLevel heap fuel logger cfgLevel hooks clock args = ([], none)) ∧
      (¬ levels.indexOf args.level < levels.indexOf cfgLevel →
        ∀ fmt, formatMessage heap fuel logger (clock 0) args.msg args.obj = .ok fmt →
          (∀ h ∈ hooks, ∀ e, (h.run e).isOk = true) →
          ∀ i, i < hooks.length →
            LogEvent.hookCalled i
              ⟨logger, clock 0, args.level, args.msg, args.obj, outStr fmt⟩ ∈
              (logAtLevel heap fuel logger cfgLevel hooks clock args).1) := by
  intro heap fuel logger cfgLevel hooks clock args
  refine ⟨fun hlv => logAtLevel_filtered heap fuel logger cfgLevel hooks clock args hlv, ?_⟩
  intro hlv fmt hfmt hok i hi
  have hall := runHooks_all_ok heap fuel clock
    ⟨logger, clock 0, args.level, args.msg, args.obj, outStr fmt⟩ hooks 0 1 hok
  rw [logAtLevel_pass_none heap fuel logger cfgLevel hooks clock args fmt _
    hlv hfmt rfl hall.1]
  exact List.mem_cons_of_mem _ (by simpa using hall.2 i hi)

theorem claim3_witness :
    (logAtLevel [] 10 "log" .warn [consoleHook] (fun _ => "T")
      ⟨.info, "m", .vUndefined⟩ = ([], none)) ∧
    LogEvent.hookCalled 0
        ⟨"log", "T", .info, "m", .vUndefined,
         "\x7b\n  \"logger\": \"log\",\n  \"ts\": \"T\",\n  \"msg\": \"m\"\n\x7d"⟩ ∈
      (logAtLevel [] 10 "log" .debug [consoleHook] (fun _ => "T")
        ⟨.info, "m", .vUndefined⟩).1 :=
  ⟨(claim3_level_filter [] 10 "log" .warn [consoleHook] (fun _ => "T")
      ⟨.info, "m", .vUndefined⟩).1 (by decide),
   (claim3_level_filter [] 10 "log" .debug [consoleHook] (fun _ => "T")
      ⟨.info, "m", .vUndefined⟩).2 (by decide)
     (some "\x7b\n  \"logger\": \"log\",\n  \"ts\": \"T\",\n  \"msg\": \"m\"\n\x7d") rfl
     (fun h hh e => by cases hh with
       | head => rfl
       | tail _ ht => cases ht)
     0 (by decide)⟩


/-- The dispatch loop with per-hook fault isolation: provided each hook
failure can itself be reported (its thrown value normalizes and the
diagnostic record serializes), the loop raises nothing, every hook is
invoked in order with the shared entry, and each failing hook produces a
direct write of its `logger_hook_error` report on the error console
stream. -/
theorem runHooks_isolated (heap : Heap) (fuel : Nat) (clock : Nat → String)
    (entry : LogHookArgs) :
    ∀ (hooks : List Hook) (i n : Nat),
      (∀ h ∈ hooks, ∀ exc, h.run entry = .error exc →
        ∀ ts2, (hookErrorReport heap fuel ts2 exc h.hname entry).isOk = true) →
      (runHooks heap fuel clock entry hooks i n).2.2 = none ∧
      (∀ j, j < hooks.length →
        LogEvent.hookCalled (i + j) entry ∈
          (runHooks heap fuel clock entry hooks i n).1) ∧
      (∀ (j : Nat) (h' : Hook), hooks[j]? = some h' →
        ∀ exc, h'.run entry = .error exc →
        ∃ ts2 s, hookErrorReport heap fuel ts2 exc h'.hname entry = .ok s ∧
          LogEvent.consoleWrite .error (outStr s) ∈
            (runHooks heap fuel clock entry hooks i n).1) := by
  intro hooks
  induction hooks with
  | nil =>
    intro i n _
    exact ⟨rfl, fun j hj => absurd hj (by simp),
      fun j h' hj => by simp at hj⟩
  | cons h rest ih =>
    intro i n hok
    have hokr : ∀ h' ∈ rest, ∀ exc, h'.run entry = .error exc →
        ∀ ts2, (hookErrorReport heap fuel ts2 exc h'.hname entry).isOk = true :=
      fun h' hh => hok h' (List.mem_cons_of_mem h hh)
    rcases hrun : h.run entry with exc | evs
    · have hrep := hok h (List.mem_cons_self h rest) exc hrun (clock n)
      obtain ⟨s, hs⟩ := except_ok_exists _ hrep
      have ihr := ih (i + 1) (n + 1) hokr
      refine ⟨?_, ?_, ?_⟩
      · simp only [runHooks, hrun, hs]
        exact ihr.1
      · intro j hj
        simp only [runHooks, hrun, hs]
        cases j with
        | zero => exact List.mem_cons_self _ _
        | succ j' =>
          apply List.mem_cons_of_mem
          apply List.mem_cons_of_mem
          apply List.mem_cons_of_mem
          have hmem := ihr.2.1 j' (by simpa using Nat.lt_of_succ_lt_succ hj)
          rw [show i + 1 + j' = i + (j' + 1) by omega] at hmem
          exact hmem
      · intro j h' hj exc' hrun'
        cases j with
        | zero =>
          simp only [List.getElem?_cons_zero] at hj
          cases hj
          rw [hrun] at hrun'
          cases hrun'
          refine ⟨clock n, s, hs, ?_⟩
          simp only [runHooks, hrun, hs]
          exact List.mem_cons_of_mem _
            (List.mem_cons_of_mem _ (List.mem_cons_self _ _))
        | succ j' =>
          obtain ⟨ts2, s', hs', hmem⟩ :=
            ihr.2.2 j' h' (by simpa using hj) exc' hrun'
          refine ⟨ts2, s', hs', ?_⟩
          simp only [runHooks, hrun, hs]
          exact List.mem_cons_of_mem _
            (List.mem_cons_of_mem _ (List.mem_cons_of_mem _ hmem))
    · have ihr := ih (i + 1) n hokr
      refine ⟨?_, ?_, ?_⟩
      · simp only [runHooks, hrun]
        exact ihr.1
      · intro j hj
        simp only [runHooks, hrun]
        cases j with
        | zero => exact List.mem_cons_self _ _
        | succ j' =>
          apply List.mem_cons_of_mem
          apply List.mem_append_right
          have hmem := ihr.2.1 j' (by simpa using Nat.lt_of_succ_lt_succ hj)
          rw [show i + 1 + j' = i + (j' + 1) by omega] at hmem
          exact hmem
      · intro j h' hj exc' hrun'
        cases j with
        | zero =>
          simp only [List.getElem?_cons_zero] at hj
          cases hj
          rw [hrun] at hrun'
          cases hrun'
        | succ j' =>
          obtain ⟨ts2, s', hs', hmem⟩ :=
            ihr.2.2 j' h' (by simpa using hj) exc' hrun'
          refine ⟨ts2, s', hs', ?_⟩
          simp only [runHooks, hrun]
          exact List.mem_cons_of_mem _ (List.mem_append_right _ hmem)


/-- Claim C2 (amended): for a call that passes the level filter, provided
each synchronously-thrown hook exception can itself be reported (the
thrown value normalizes and the `logger_hook_error` record serializes),
the exception is caught locally, every hook in the list — including all
remaining ones — is invoked with the same HookInvocationArgs, and for each
failing hook the `logger_hook_error` report (naming the hook and carrying
the original entry, see `hookErrorRecord`) is written directly to the
error console stream, bypassing the configured hooks. -/
theorem claim2_hook_isolation :
    ∀ (heap : Heap) (fuel : Nat) (logger : String) (cfgLevel : LogLevel)
      (hooks : List Hook) (clock : Nat → String) (args : LogCallArgs)
      (fmt : Option String),
      ¬ levels.indexOf args.level < levels.indexOf cfgLevel →
      formatMessage heap fuel logger (clock 0) args.msg args.obj = .ok fmt →
      (∀ h ∈ hooks, ∀ exc,
        h.run ⟨logger, clock 0, args.level, args.msg, args.obj, outStr fmt⟩ =
          .error exc →
        ∀ ts2, (hookErrorReport heap fuel ts2 exc h.hname
          ⟨logger, clock 0, args.level, args.msg, args.obj, outStr fmt⟩).isOk =
            true) →
      (∀ i, i < hooks.length →
        LogEvent.hookCalled i
            ⟨logger, clock 0, args.level, args.msg, args.obj, outStr fmt⟩ ∈
          (logAtLevel heap fuel logger cfgLevel hooks clock args).1) ∧
      (∀ (i : Nat) (h' : Hook), hooks[i]? = some h' → ∀ exc,
        h'.run ⟨logger, clock 0, args.level, args.msg, args.obj, outStr fmt⟩ =
          .error exc →
        ∃ ts2 s,
          hookErrorReport heap fuel ts2 exc h'.hname
            ⟨logger, clock 0, args.level, args.msg, args.obj, outStr fmt⟩ =
            .ok s ∧
          LogEvent.consoleWrite .error (outStr s) ∈
            (logAtLevel heap fuel logger cfgLevel hooks clock args).1) := by
  intro heap fuel logger cfgLevel hooks clock args fmt hlv hfmt hok
  have hiso := runHooks_isolated heap fuel clock
    ⟨logger, clock 0, args.level, args.msg, args.obj, outStr fmt⟩ hooks 0 1 hok
  rw [logAtLevel_pass_none heap fuel logger cfgLevel hooks clock args fmt _
    hlv hfmt rfl hiso.1]
  constructor
  · intro i hi
    exact List.mem_cons_of_mem _ (by simpa using hiso.2.1 i hi)
  · intro i h' hi exc hrun'
    obtain ⟨ts2, s, hs, hmem⟩ := hiso.2.2 i h' hi exc hrun'
    exact ⟨ts2, s, hs, List.mem_cons_of_mem _ hmem⟩

/-- Claim C2 counterexample: a remaining hook can be skipped.  When the
first hook throws a value whose normalization itself throws (an object
whose string conversion fails), the exception escapes the per-hook catch
handler and aborts the loop: the trace never invokes hook 1
(`workingHook`), and no `logger_hook_error` record is written. -/
theorem claim2_counterexample :
    ((logAtLevel [⟨none, .hObj []⟩] 20 "log" .debug
        [⟨"failingHook", fun _ => .error (.vRef 0)⟩,
         ⟨"workingHook", fun _ => .ok []⟩]
        (fun _ => "T") ⟨.info, "m", .vUndefined⟩).1.all
      (fun e => match e with
        | LogEvent.hookCalled i _ => decide (i = 0)
        | _ => true)) = true := rfl

theorem claim2_witness :
    (LogEvent.hookCalled 1
        ⟨"log", "T", .info, "m", .vUndefined,
         "\x7b\n  \"logger\": \"log\",\n  \"ts\": \"T\",\n  \"msg\": \"m\"\n\x7d"⟩ ∈
      (logAtLevel [] 30 "log" .debug
        [⟨"failingHook",
          fun _ => .error (.vErr "Error" "hook error" (some "stack") [] (.val .vUndefined))⟩,
         ⟨"workingHook", fun _ => .ok []⟩]
        (fun _ => "T") ⟨.info, "m", .vUndefined⟩).1) ∧
    (∃ ts2 s,
      hookErrorReport [] 30 ts2 (.vErr "Error" "hook error" (some "stack") [] (.val .vUndefined))
          "failingHook"
          ⟨"log", "T", .info, "m", .vUndefined,
           "\x7b\n  \"logger\": \"log\",\n  \"ts\": \"T\",\n  \"msg\": \"m\"\n\x7d"⟩ =
          .ok s ∧
      LogEvent.consoleWrite .error (outStr s) ∈
        (logAtLevel [] 30 "log" .debug
          [⟨"failingHook",
            fun _ => .error (.vErr "Error" "hook error" (some "stack") [] (.val .vUndefined))⟩,
           ⟨"workingHook", fun _ => .ok []⟩]
          (fun _ => "T") ⟨.info, "m", .vUndefined⟩).1) := by
  have hok : ∀ h ∈ ([⟨"failingHook",
        fun _ => .error (.vErr "Error" "hook error" (some "stack") [] (.val .vUndefined))⟩,
       ⟨"workingHook", fun _ => .ok []⟩] : List Hook), ∀ exc,
      h.run ⟨"log", "T", .info, "m", .vUndefined,
        "\x7b\n  \"logger\": \"log\",\n  \"ts\": \"T\",\n  \"msg\": \"m\"\n\x7d"⟩ =
        .error exc →
      ∀ ts2, (hookErrorReport [] 30 ts2 exc h.hname
        ⟨"log", "T", .info, "m", .vUndefined,
         "\x7b\n  \"logger\": \"log\",\n  \"ts\": \"T\",\n  \"msg\": \"m\"\n\x7d"⟩).isOk =
          true := by
    intro h hh exc hrun ts2
    cases hh with
    | head =>
      cases hrun
      rfl
    | tail _ ht =>
      cases ht with
      | head => exact Except.noConfusion hrun
      | tail _ ht2 => cases ht2
  have H := claim2_hook_isolation [] 30 "log" .debug
    [⟨"failingHook",
      fun _ => .error (.vErr "Error" "hook error" (some "stack") [] (.val .vUndefined))⟩,
     ⟨"workingHook", fun _ => .ok []⟩]
    (fun _ => "T") ⟨.info, "m", .vUndefined⟩
    (some "\x7b\n  \"logger\": \"log\",\n  \"ts\": \"T\",\n  \"msg\": \"m\"\n\x7d")
    (by decide) rfl hok
  exact ⟨H.1 1 (by decide),
    H.2 0 ⟨"failingHook",
      fun _ => .error (.vErr "Error" "hook error" (some "stack") [] (.val .vUndefined))⟩
      rfl (.vErr "Error" "hook error" (some "stack") [] (.val .vUndefined)) rfl⟩


/-- Claim C3 counterexample: a call at an enabled level (`info` with
configured minimum `debug`) can still fail to reach the hooks: a payload
getter that throws makes record serialization fail, so the call takes the
`logger_error` path and invokes no hook, refuting the unconditional
"reaches hooks iff ordinal ≥" biconditional. -/
theorem claim3_counterexample :
    ¬ levels.indexOf LogLevel.info < levels.indexOf LogLevel.debug ∧
    ((logAtLevel
        [⟨some "[object Object]",
          .hObj [("x", .getterThrow (.vErr "Error" "boom" none [] (.val .vUndefined)))]⟩]
        10 "log" .debug [consoleHook] (fun _ => "T")
        ⟨.info, "m", .vRef 0⟩).1.all
      (fun e => match e with
        | LogEvent.hookCalled _ _ => false
        | _ => true)) = true :=
  ⟨by decide, rfl⟩

/-- Claim C1 counterexample: an exception can propagate to the caller.  A
payload getter throws an object whose string conversion fails; the outer
catch then calls `serializeError` on it, `String(err)` throws a TypeError,
and that TypeError escapes `logAtLevel` — in JavaScript:
`log.info("m", { get x() { throw Object.create(null); } })` throws. -/
theorem claim1_counterexample :
    (logAtLevel
      [⟨some "[object Object]", .hObj [("x", .getterThrow (.vRef 1))]⟩,
       ⟨none, .hObj []⟩]
      10 "log" .debug [consoleHook] (fun _ => "T")
      ⟨.info, "m", .vRef 0⟩).2 = some typeErrorVal := rfl

theorem claim1_witness :
    (∃ exc ts3,
      loggerErrorReport
        [⟨some "[object Object]", .hObj [("x", .getterThrow (.vRef 1))]⟩,
         ⟨none, .hObj []⟩] 10 ts3 exc "m" = .error typeErrorVal) ∧
    (logAtLevel [] 10 "log" .debug [consoleHook] (fun _ => "T")
      ⟨.info, "m", .vUndefined⟩).2 = none :=
  ⟨(claim1_exception_containment
      [⟨some "[object Object]", .hObj [("x", .getterThrow (.vRef 1))]⟩,
       ⟨none, .hObj []⟩]
      10 "log" .debug [consoleHook] (fun _ => "T")
      ⟨.info, "m", .vRef 0⟩).1 typeErrorVal rfl,
   (claim1_exception_containment [] 10 "log" .debug [consoleHook]
      (fun _ => "T") ⟨.info, "m", .vUndefined⟩).2 (by decide)
     (some "\x7b\n  \"logger\": \"log\",\n  \"ts\": \"T\",\n  \"msg\": \"m\"\n\x7d") rfl
     (fun h hh e => by
       cases hh with
       | head => rfl
       | tail _ ht => cases ht)⟩

/-- Successful object members render as the canonical field lines of some
JSON fields, provided node renderings do. -/
theorem serMembers_shape (d : Nat)
    (serVal : List Nat → SVal → Except JsValue (Option String × List Nat))
    (hsv : ∀ c sv s c', serVal c sv = .ok (some s, c') →
      ∃ j, s = renderJson d j) :
    ∀ (ms : List (String × Except JsValue SVal)) (cache : List Nat)
      (parts : List String) (cache'' : List Nat),
      serMembers serVal cache ms = .ok (parts, cache'') →
      ∃ fjs, parts = renderJsonFields d fjs := by
  intro ms
  induction ms with
  | nil =>
    intro cache parts c'' h
    simp only [serMembers] at h
    cases h
    exact ⟨[], rfl⟩
  | cons p rest ih =>
    intro cache parts c'' h
    obtain ⟨k, g⟩ := p
    simp only [serMembers] at h
    split at h
    · cases h
    · rename_i sv
      split at h
      · cases h
      · rename_i r c1 h1
        split at h
        · cases h
        · rename_i parts1 c2 h2
          obtain ⟨fjs, hfjs⟩ := ih c1 parts1 c2 h2
          cases h
          cases r with
          | none => exact ⟨fjs, hfjs⟩
          | some str =>
            obtain ⟨j, hj⟩ := hsv cache sv str c1 h1
            exact ⟨(k, j) :: fjs, by rw [renderJsonFields, ← hj, ← hfjs]⟩

/-- Successful array elements render as the canonical element lines of some
JSON values (an omitted element becomes the literal null). -/
theorem serElems_shape (d : Nat)
    (serVal : List Nat → SVal → Except JsValue (Option String × List Nat))
    (hsv : ∀ c sv s c', serVal c sv = .ok (some s, c') →
      ∃ j, s = renderJson d j) :
    ∀ (vs : List JsValue) (cache : List Nat)
      (parts : List String) (cache'' : List Nat),
      serElems serVal cache vs = .ok (parts, cache'') →
      ∃ ejs, parts = renderJsonElems d ejs := by
  intro vs
  induction vs with
  | nil =>
    intro cache parts c'' h
    simp only [serElems] at h
    cases h
    exact ⟨[], rfl⟩
  | cons v rest ih =>
    intro cache parts c'' h
    simp only [serElems] at h
    split at h
    · cases h
    · rename_i r c1 h1
      split at h
      · cases h
      · rename_i parts1 c2 h2
        obtain ⟨ejs, hejs⟩ := ih c1 parts1 c2 h2
        cases h
        cases r with
        | none =>
          exact ⟨Json.jNull :: ejs,
            by rw [renderJsonElems, ← hejs]; rfl⟩
        | some str =>
          obtain ⟨j, hj⟩ := hsv cache _ str c1 h1
          exact ⟨j :: ejs, by rw [renderJsonElems, ← hj, ← hejs]; rfl⟩

/-- Everything the serializer emits is well-formed pretty-printed JSON:
every successful node rendering at depth `d` is the canonical two-space
rendering of some JSON document. -/
theorem serNode_shape (heap : Heap) :
    ∀ (fuel depth : Nat) (cache : List Nat) (sv : SVal) (s : String)
      (cache' : List Nat),
      serNode heap fuel depth cache sv = .ok (some s, cache') →
      ∃ j, s = renderJson depth j := by
  intro fuel
  induction fuel with
  | zero => intro depth cache sv s cache' h; cases h
  | succ fuel ih =>
    intro depth cache sv s cache' h
    have hsv : ∀ c sv' s' c',
        serNode heap fuel (depth + 1) c sv' = .ok (some s', c') →
        ∃ j, s' = renderJson (depth + 1) j :=
      fun c sv' s' c' h' => ih (depth + 1) c sv' s' c' h'
    cases sv with
    | freshObj fields =>
      simp only [serNode] at h
      split at h
      · rename_i parts1 c1 h1
        obtain ⟨fjs, hfjs⟩ := serMembers_shape (depth + 1) _ hsv _ cache parts1 c1 h1
        cases h
        exact ⟨Json.jObj fjs, by rw [renderJson, ← hfjs]⟩
      · cases h
    | orig v =>
      cases v with
      | vErr n m st ex c =>
        simp only [serNode] at h
        split at h
        · cases h
        · rename_i efields hse
          split at h
          · rename_i parts1 c1 h1
            obtain ⟨fjs, hfjs⟩ :=
              serMembers_shape (depth + 1) _ hsv _ cache parts1 c1 h1
            cases h
            exact ⟨Json.jObj fjs, by rw [renderJson, ← hfjs]⟩
          · cases h
      | vRef a =>
        simp only [serNode] at h
        by_cases hc : cache.contains a = true
        · rw [if_pos hc] at h
          cases h
        · rw [if_neg hc] at h
          split at h
          · cases h
          · rename_i o ho
            split at h
            · rename_i fields hbody
              split at h
              · rename_i parts1 c1 h1
                obtain ⟨fjs, hfjs⟩ :=
                  serMembers_shape (depth + 1) _ hsv _ (cache ++ [a]) parts1 c1 h1
                cases h
                exact ⟨Json.jObj fjs, by rw [renderJson, ← hfjs]⟩
              · cases h
            · rename_i elems hbody
              split at h
              · rename_i parts1 c1 h1
                obtain ⟨ejs, hejs⟩ :=
                  serElems_shape (depth + 1) _ hsv _ (cache ++ [a]) parts1 c1 h1
                cases h
                exact ⟨Json.jArr ejs, by rw [renderJson, ← hejs]⟩
              · cases h
      | vNull => cases h; exact ⟨Json.jNull, rfl⟩
      | vUndefined => cases h
      | vBool b => cases h; exact ⟨Json.jBool b, rfl⟩
      | vNum n => cases h; exact ⟨Json.jNum n, rfl⟩
      | vStr s0 => cases h; exact ⟨Json.jStr s0, rfl⟩


/-- A string member always renders as its quoted JSON literal and leaves
the cache unchanged. -/
theorem serNode_str (heap : Heap) (fuel depth : Nat) (cache : List Nat)
    (s : String) :
    serNode heap (fuel + 1) depth cache (SVal.orig (.vStr s)) =
      .ok (some (quoteJsonString s), cache) := rfl

/-- A fresh object never serializes to `undefined`: rendering it always
produces text. -/
theorem serNode_freshObj_some (heap : Heap) (fuel depth : Nat)
    (cache : List Nat) (fs : List (String × SVal)) (r : Option String)
    (c' : List Nat)
    (h : serNode heap fuel depth cache (.freshObj fs) = .ok (r, c')) :
    ∃ s, r = some s := by
  cases fuel with
  | zero => cases h
  | succ f =>
    simp only [serNode] at h
    split at h
    · rename_i parts c1 h1
      cases h
      exact ⟨_, rfl⟩
    · cases h

/-- Both internally generated failure records serialize to pretty-printed
JSON whose top-level fields are exactly ts, msg, err, obj in that order —
in particular they have no logger field. -/
theorem stringify_failure_record_shape (heap : Heap) (fuel : Nat)
    (ts0 mname : String) (ef of : List (String × SVal)) (s : String)
    (h : stringify heap fuel
      (SVal.freshObj [("ts", SVal.orig (.vStr ts0)),
        ("msg", SVal.orig (.vStr mname)),
        ("err", SVal.freshObj ef), ("obj", SVal.freshObj of)]) =
      .ok (some s)) :
    ∃ jerr jobj, s = renderJson 0 (.jObj [("ts", .jStr ts0),
      ("msg", .jStr mname), ("err", jerr), ("obj", jobj)]) := by
  cases fuel with
  | zero =>
    simp only [stringify, serNode] at h
    cases h
  | succ f =>
    simp only [stringify] at h
    split at h
    · rename_i r c hnode
      cases h
      simp only [serNode] at hnode
      split at hnode
      · rename_i parts c1 hm
        cases hnode
        cases f with
        | zero =>
          simp only [List.map, serMembers, serNode] at hm
          cases hm
        | succ f2 =>
          simp only [List.map, serMembers, serNode_str] at hm
          rcases h3 : serNode heap (f2 + 1) (0 + 1) [] (SVal.freshObj ef)
            with e3 | ⟨r3, c3⟩
          · rw [h3] at hm
            simp only [] at hm
            cases hm
          · obtain ⟨s3, hr3⟩ := serNode_freshObj_some heap _ _ _ _ _ _ h3
            subst hr3
            rw [h3] at hm
            simp only [] at hm
            rcases h4 : serNode heap (f2 + 1) (0 + 1) c3 (SVal.freshObj of)
              with e4 | ⟨r4, c4⟩
            · rw [h4] at hm
              simp only [] at hm
              cases hm
            · obtain ⟨s4, hr4⟩ := serNode_freshObj_some heap _ _ _ _ _ _ h4
              subst hr4
              rw [h4] at hm
              simp only [] at hm
              obtain ⟨j3, hj3⟩ := serNode_shape heap _ _ _ _ _ _ h3
              obtain ⟨j4, hj4⟩ := serNode_shape heap _ _ _ _ _ _ h4
              cases hm
              refine ⟨j3, j4, ?_⟩
              simp only [renderJson, renderJsonFields]
              rw [← hj3, ← hj4]
      · cases hnode
    · cases h


/-- A successful `formatMessage` output is pretty-printed JSON whose
top-level fields are logger, ts, msg in that order, followed by obj exactly
when the payload serializes to something. -/
theorem formatMessage_shape (heap : Heap) (fuel : Nat)
    (logger ts msg : String) (obj : JsValue) (s : String)
    (h : formatMessage heap fuel logger ts msg obj = .ok (some s)) :
    (∃ jo, s = renderJson 0 (.jObj [("logger", .jStr logger),
      ("ts", .jStr ts), ("msg", .jStr msg), ("obj", jo)])) ∨
    s = renderJson 0 (.jObj [("logger", .jStr logger), ("ts", .jStr ts),
      ("msg", .jStr msg)]) := by
  cases fuel with
  | zero =>
    simp only [formatMessage, stringify, serNode] at h
    cases h
  | succ f =>
    simp only [formatMessage, formatRecord, stringify] at h
    split at h
    · rename_i r c hnode
      cases h
      simp only [serNode] at hnode
      split at hnode
      · rename_i parts c1 hm
        cases hnode
        cases f with
        | zero =>
          simp only [List.map, serMembers, serNode] at hm
          cases hm
        | succ f2 =>
          simp only [List.map, serMembers, serNode_str] at hm
          rcases h4 : serNode heap (f2 + 1) (0 + 1) [] (SVal.orig obj)
            with e4 | ⟨r4, c4⟩
          · rw [h4] at hm
            simp only [] at hm
            cases hm
          · rw [h4] at hm
            simp only [] at hm
            cases r4 with
            | none =>
              cases hm
              right
              simp only [renderJson, renderJsonFields]
            | some s4 =>
              obtain ⟨j4, hj4⟩ := serNode_shape heap _ _ _ _ _ _ h4
              cases hm
              left
              refine ⟨j4, ?_⟩
              simp only [renderJson, renderJsonFields]
              rw [← hj4]
      · cases hnode
    · cases h


/-- Claim C8: every formatted output string is pretty-printed JSON with
two-space indent (`renderJson` is that canonical rendering): normal records
have field order logger, ts, msg, obj (obj omitted exactly when the payload
serializes to `undefined`), while the internally generated failure records
(`logger_hook_error` and `logger_error`) have field order ts, msg, err, obj
and no logger field. -/
theorem claim8_wire_format :
    (∀ (heap : Heap) (fuel : Nat) (logger ts msg : String) (obj : JsValue)
        (s : String),
      formatMessage heap fuel logger ts msg obj = .ok (some s) →
      (∃ jo, s = renderJson 0 (.jObj [("logger", .jStr logger),
        ("ts", .jStr ts), ("msg", .jStr msg), ("obj", jo)])) ∨
        s = renderJson 0 (.jObj [("logger", .jStr logger), ("ts", .jStr ts),
          ("msg", .jStr msg)])) ∧
    (∀ (heap : Heap) (fuel : Nat) (ts2 : String)
        (errFields : List (String × SVal)) (hookName : String)
        (entry : LogHookArgs) (s : String),
      stringify heap fuel (hookErrorRecord ts2 errFields hookName entry) =
        .ok (some s) →
      ∃ jerr jobj, s = renderJson 0 (.jObj [("ts", .jStr ts2),
        ("msg", .jStr "logger_hook_error"), ("err", jerr), ("obj", jobj)])) ∧
    (∀ (heap : Heap) (fuel : Nat) (ts3 : String)
        (errFields : List (String × SVal)) (msg : String) (s : String),
      stringify heap fuel (loggerErrorRecord ts3 errFields msg) =
        .ok (some s) →
      ∃ jerr jobj, s = renderJson 0 (.jObj [("ts", .jStr ts3),
        ("msg", .jStr "logger_error"), ("err", jerr), ("obj", jobj)])) :=
  ⟨formatMessage_shape,
   fun heap fuel ts2 ef _ _ s h =>
     stringify_failure_record_shape heap fuel ts2 "logger_hook_error" ef _ s h,
   fun heap fuel ts3 ef _ s h =>
     stringify_failure_record_shape heap fuel ts3 "logger_error" ef _ s h⟩

theorem claim8_witness :
    (∃ s, formatMessage [] 10 "log" "T" "m" .vUndefined = .ok (some s) ∧
      ((∃ jo, s = renderJson 0 (.jObj [("logger", .jStr "log"),
          ("ts", .jStr "T"), ("msg", .jStr "m"), ("obj", jo)])) ∨
        s = renderJson 0 (.jObj [("logger", .jStr "log"), ("ts", .jStr "T"),
          ("msg", .jStr "m")]))) ∧
    (∃ s, stringify [] 20
        (hookErrorRecord "T" [] "hookName"
          ⟨"log", "T", .info, "m", .vUndefined, "F"⟩) = .ok (some s) ∧
      ∃ jerr jobj, s = renderJson 0 (.jObj [("ts", .jStr "T"),
        ("msg", .jStr "logger_hook_error"), ("err", jerr), ("obj", jobj)])) ∧
    (∃ s, stringify [] 20 (loggerErrorRecord "T" [] "m") = .ok (some s) ∧
      ∃ jerr jobj, s = renderJson 0 (.jObj [("ts", .jStr "T"),
        ("msg", .jStr "logger_error"), ("err", jerr), ("obj", jobj)])) :=
  ⟨⟨_, rfl, claim8_wire_format.1 [] 10 "log" "T" "m" .vUndefined _ rfl⟩,
   ⟨_, rfl, claim8_wire_format.2.1 [] 20 "T" [] "hookName"
      ⟨"log", "T", .info, "m", .vUndefined, "F"⟩ _ rfl⟩,
   ⟨_, rfl, claim8_wire_format.2.2 [] 20 "T" [] "m" _ rfl⟩⟩

end SSSLogger
